import Mathlib

/-!
Verification of core components of the vitess control plane and binlog
streaming pipeline, as a shallow embedding in Lean 4.

Components embedded here:
- ShardInfo.Rebuild (go/vt/tabletmanager/shard.go)
- BinlogReader.serve and BinlogReader.ServeData seek logic (mysqlctl binlog reader)
- BinlogServer.throttleTicker sleep assignment (vt binlog server)
- TabletActor.HandleAction / StoreActionResponse over a zookeeper state model
  (go/vt/tabletmanager/actor.go)
- Blp binlog parser: position tracking, transaction buffering and the
  keyrange transaction filter (vt binlog server)
-/

namespace Vitess

/-! ## Data model: tablets and shards -/

/-- Alias identifying a tablet, mirroring naming.TabletAlias. -/
structure TabletAlias where
  Cell : String
  Uid : Nat
deriving DecidableEq, Repr, Inhabited

/-- Tablet types, mirroring the enumerated tablet type strings. -/
inductive TabletType where
  | idle | master | replica | rdonly | batch | spare | backup | restore
  | lag | lagOrphan | scrap
deriving DecidableEq, Repr, Inhabited

/-- Key range of hashed 64-bit keyspace ids, half open.  The source stores
keyspace ids as byte strings ordered lexicographically; an unsigned 64-bit
value model is order- and equality-isomorphic for the operations used here.
An End of none encodes the unbounded maximum (empty End string in the
source). -/
structure KeyRange where
  Start : Nat
  End : Option Nat
deriving DecidableEq, Repr, Inhabited

/-- Membership test of a keyspace id in a key range, mirroring
key.KeyRange.Contains: Start is inclusive, End exclusive, with the empty
End meaning unbounded. -/
def KeyRange.kontains (kr : KeyRange) (id : Nat) : Bool :=
  kr.Start ≤ id && (match kr.End with
    | none => true
    | some e => id < e)

/-- Tablet record fields used by ShardInfo.Rebuild. -/
structure Tablet where
  Cell : String
  Uid : Nat
  ttype : TabletType
  keyRange : KeyRange
deriving DecidableEq, Repr

/-- Alias of a tablet, as computed at the top of the Rebuild loop. -/
def tabletAlias (t : Tablet) : TabletAlias :=
  { Cell := t.Cell, Uid := t.Uid }

/-- Shard record, mirroring tabletmanager.Shard. -/
structure Shard where
  MasterAlias : TabletAlias
  ReplicaAliases : List TabletAlias
  RdonlyAliases : List TabletAlias
  keyRange : KeyRange
deriving DecidableEq, Repr

/-- Fresh shard value, mirroring newShard (zero master alias, empty alias
lists, zero key range). -/
def newShard : Shard :=
  { MasterAlias := default
    ReplicaAliases := []
    RdonlyAliases := []
    keyRange := default }

/-- Switch on the tablet type inside the Rebuild loop: master overwrites
MasterAlias, replica and rdonly append to their lists, every other type is
ignored. -/
def rebuildStep (tmp : Shard) (t : Tablet) : Shard :=
  match t.ttype with
  | .master => { tmp with MasterAlias := tabletAlias t }
  | .replica => { tmp with ReplicaAliases := tmp.ReplicaAliases ++ [tabletAlias t] }
  | .rdonly => { tmp with RdonlyAliases := tmp.RdonlyAliases ++ [tabletAlias t] }
  | _ => tmp

/-- Loop body of ShardInfo.Rebuild.  The Boolean tracks whether we are at
index 0 (copy the key range) or later (verify the key range against the
one copied from the first member; mismatch returns an error). -/
def rebuildAux : Shard → Bool → List Tablet → Except String Shard
  | tmp, _, [] => .ok tmp
  | tmp, isFirst, t :: rest =>
    let tmp1 := rebuildStep tmp t
    if isFirst then
      rebuildAux { tmp1 with keyRange := t.keyRange } false rest
    else if tmp1.keyRange = t.keyRange then
      rebuildAux tmp1 false rest
    else
      .error "inconsistent KeyRange"

/-- ShardInfo.Rebuild on a member tablet list, producing the new shard
record or the inconsistent-KeyRange error. -/
def rebuild (shardTablets : List Tablet) : Except String Shard :=
  rebuildAux newShard true shardTablets

/-- ShardInfo.Rebuild seen from the ShardInfo it mutates: on success the
shard record is replaced, on error it is left untouched (si.Shard is only
assigned after the loop finishes). -/
def shardInfoRebuild (old : Shard) (shardTablets : List Tablet) : Shard × Option String :=
  match rebuild shardTablets with
  | .ok s => (s, none)
  | .error e => (old, some e)

/-- Predicate used to state the partition property: tablet is a replica. -/
def isReplica (t : Tablet) : Bool := t.ttype == TabletType.replica

/-- Predicate used to state the partition property: tablet is rdonly. -/
def isRdonly (t : Tablet) : Bool := t.ttype == TabletType.rdonly

/-- Predicate used to state the partition property: tablet is a master. -/
def isMaster (t : Tablet) : Bool := t.ttype == TabletType.master

/-! ## Binlog reader: start-offset seek

The file system is abstracted as the list of byte sizes of the
consecutive binlog files beginning at the requested start file; opening a
file past the end of that list fails in the source (os.Open inside
BinlogReader.open panics on a missing file). -/

/-- Seek loop of BinlogReader.serve for a positive start offset: while the
remaining offset exceeds the size of the current file, subtract that size
and rotate to the next file; on success return the index of the landing
file and the offset within it.  none models the panic of open on a
missing next file. -/
def serveSeek : List Nat → Nat → Option (Nat × Nat)
  | [], _ => none
  | s :: rest, p =>
    if p > s then (serveSeek rest (p - s)).map (fun r => (r.1 + 1, r.2))
    else some (0, p)

/-- Start-offset handling of BinlogReader.ServeData for a positive start
offset: when the offset exceeds the size of the starting file the
function logs an error and returns without serving (modelled as none);
otherwise it serves from that offset within the starting file. -/
def serveDataSeek : List Nat → Nat → Option Nat
  | [], _ => none
  | s :: _, p => if p > s then none else some p

/-! ## Binlog server throttle ticker

Rate arithmetic is carried out by the source in 64-bit floating point; it
is embedded here over the rationals, which is exact for the operations
and witnesses involved. -/

/-- Average of the positive entries of a rate list, mirroring avgRate:
only rates greater than zero contribute to the sum and the count, and a
zero count yields zero. -/
def avgRate (rateList : List ℚ) : ℚ :=
  let acc := rateList.foldl
    (fun ac r => if 0 < r then (ac.1 + r, ac.2 + 1) else ac) ((0 : ℚ), (0 : ℚ))
  if 0 < acc.2 then acc.1 / acc.2 else 0

/-- Truncation toward zero of a rational, mirroring the conversion of a
Go float64 to int64. -/
def truncQ (x : ℚ) : ℤ := if 0 ≤ x then ⌊x⌋ else ⌈x⌉

/-- Ticker interval of throttleTicker, in seconds (one minute). -/
def tickerIntervalSeconds : ℚ := 60

/-- Ticker interval of throttleTicker, in nanoseconds. -/
def tickerIntervalNs : ℚ := 60 * 10 ^ 9

/-- Sleep duration, in nanoseconds, that one iteration of
BinlogServer.throttleTicker assigns to the subscriber whose key range tag
is tag.  rateMap carries the published per-subscriber rate lists keyed by
DmlCount-prefixed tags, and currentSleepNs is the sleep the subscriber
already had (left untouched when total qps does not exceed the ceiling).
The value written by the source is time.Duration(int64(val)) multiplied
by time.Millisecond, hence truncQ val * 10^6 nanoseconds. -/
def throttleTick (throttleRate : ℚ) (rateMap : List (String × List ℚ))
    (tag : String) (currentSleepNs : ℚ) : ℚ :=
  if throttleRate = 0 then 0
  else
    let krRateMap := rateMap.map (fun kv => (kv.1, avgRate kv.2))
    let totalQps := (krRateMap.map Prod.snd).sum
    let numClients : ℚ := (krRateMap.length : ℚ)
    if totalQps > throttleRate then
      let clientMaxQps := throttleRate / numClients
      match krRateMap.lookup ("DmlCount." ++ tag) with
      | some krQps =>
          if krQps > clientMaxQps then
            (truncQ (tickerIntervalSeconds * ((krQps - clientMaxQps) / krQps)) : ℚ)
              * 1000000
          else 0
      | none => 0
    else currentSleepNs

/-- Sleep duration claimed by the specification for an over-budget
subscriber: tick times (qps minus max) over qps, where tick is the ticker
interval, expressed here in nanoseconds. -/
def claimedThrottleSleepNs (qps maxQps : ℚ) : ℚ :=
  tickerIntervalNs * ((qps - maxQps) / qps)

/-! ## Zookeeper state model and the tablet actor

The topology store is modelled as an association list from paths
(component lists) to versioned nodes.  Action node payloads are held
directly as decoded envelopes; directory payloads are plain strings. -/

/-- Action states, mirroring ActionState; queued is the empty string in
the source. -/
inductive ActionState where
  | queued | running | failed | done
deriving DecidableEq, Repr

/-- Serialized header fields of an action node envelope. -/
structure ActionNode where
  Action : String
  ActionGuid : String
  Error : String
  State : ActionState
deriving DecidableEq, Repr

/-- Payload of a zookeeper node. -/
inductive NodeData where
  | actionData (node : ActionNode)
  | strData (s : String)
deriving DecidableEq, Repr

/-- Zookeeper node: payload plus version counter. -/
structure ZkNode where
  data : NodeData
  version : Nat
deriving DecidableEq, Repr

/-- Zookeeper path, as a list of components. -/
abbrev ZkPath := List String

/-- Zookeeper store state. -/
abbrev ZkState := List (ZkPath × ZkNode)

/-- Zookeeper error codes used by the embedded operations. -/
inductive ZkError where
  | zbadversion | znonode | znodeexists | znotempty
deriving DecidableEq, Repr

/-- Lookup of a path in the store. -/
def zkLookup : ZkState → ZkPath → Option ZkNode
  | [], _ => none
  | e :: es, p => if e.1 = p then some e.2 else zkLookup es p

/-- Removal of every entry at a path. -/
def zkRemove : ZkState → ZkPath → ZkState
  | [], _ => []
  | e :: es, p => if e.1 = p then zkRemove es p else e :: zkRemove es p

/-- Store of a node at a path, replacing any previous entry. -/
def zkStore (s : ZkState) (p : ZkPath) (n : ZkNode) : ZkState :=
  (p, n) :: zkRemove s p

/-- Existence of a direct child of a path. -/
def zkHasChild (s : ZkState) (p : ZkPath) : Bool :=
  s.any (fun e => e.1.dropLast == p)

/-- Existence of the parent of a path; a single-component path hangs off
the root, which always exists. -/
def parentExists (s : ZkState) (p : ZkPath) : Bool :=
  p.dropLast.isEmpty || (zkLookup s p.dropLast).isSome

/-- Create operation: fails with ZNODEEXISTS when the path is taken and
with ZNONODE when the parent is missing; a fresh node starts at version
zero. -/
def zkCreate (s : ZkState) (p : ZkPath) (d : NodeData) : Except ZkError ZkState :=
  match zkLookup s p with
  | some _ => .error .znodeexists
  | none =>
    if parentExists s p then .ok (zkStore s p ⟨d, 0⟩)
    else .error .znonode

/-- Compare-and-swap Set operation: an expected version of -1 skips the
check, otherwise a stale expected version fails with ZBADVERSION; success
bumps the version. -/
def zkSet (s : ZkState) (p : ZkPath) (d : NodeData) (expected : Int) :
    Except ZkError ZkState :=
  match zkLookup s p with
  | none => .error .znonode
  | some n =>
    if expected = -1 ∨ expected = (n.version : Int) then
      .ok (zkStore s p ⟨d, n.version + 1⟩)
    else .error .zbadversion

/-- Delete operation: fails with ZNONODE on a missing path, ZNOTEMPTY
when children remain, ZBADVERSION on a stale expected version other than
-1. -/
def zkDelete (s : ZkState) (p : ZkPath) (expected : Int) : Except ZkError ZkState :=
  match zkLookup s p with
  | none => .error .znonode
  | some n =>
    if zkHasChild s p then .error .znotempty
    else if expected = -1 ∨ expected = (n.version : Int) then .ok (zkRemove s p)
    else .error .zbadversion

/-- Modelled from the spec: ActionToActionLogPath is not under src.  Per
the topology namespace section, the terminal record of an action queued
at a path ending in an action component lives at the sibling path with
that component replaced by actionlog. -/
def actionToActionLogPath (p : ZkPath) : ZkPath :=
  p.dropLast.dropLast ++ ["actionlog", p.getLastD ""]

/-- Terminal copy of an action node as written by StoreActionResponse: on
a handler error the state becomes Failed and the error string is
recorded, otherwise the state becomes Done with an empty error. -/
def terminalNode (node : ActionNode) (actionErr : Option String) : ActionNode :=
  match actionErr with
  | some e => { node with Error := e, State := .failed }
  | none => { node with Error := "", State := .done }

/-- StoreActionResponse: write the terminal copy of the node to the
action log path; when that create fails with ZNONODE, create the missing
actionlog directory first and then retry the create. -/
def storeActionResponse (s : ZkState) (node : ActionNode) (actionPath : ZkPath)
    (actionErr : Option String) : Except ZkError ZkState :=
  let data := NodeData.actionData (terminalNode node actionErr)
  let actionLogPath := actionToActionLogPath actionPath
  match zkCreate s actionLogPath data with
  | .ok s1 => .ok s1
  | .error e =>
    if e = .znonode then
      match zkCreate s actionLogPath.dropLast (.strData "") with
      | .ok s1 =>
        match zkCreate s1 actionLogPath data with
        | .ok s2 => .ok s2
        | .error e2 => .error e2
      | .error e1 => .error e1
    else .error e

/-- Outcome of HandleAction.  waits stands for the two code paths that
fall through to WaitForCompletion on the action log path (a node already
in Running state, and a lost ZBADVERSION claim race). -/
inductive HAResult where
  | zkErr (e : ZkError)
  | decodeErr
  | failedState (err : String)
  | doneState
  | waits
  | invalidInitiation (action guid : String)
  | storeErr (e : ZkError)
  | completed (actionErr : Option String)
deriving DecidableEq, Repr

/-- Continuation of HandleAction after the initial Get returned the
decoded node and its version: inspect the state (wait on Running unless
forceRerun, report Failed and Done nodes), claim the node by a
compare-and-swap Set of state Running at the read version (ZBADVERSION
falls through to the wait path), validate action name and guid, dispatch
(abstracted as a function from the node to an optional error string),
record the result through StoreActionResponse, and delete the queue
node. -/
def handleActionFromRead (s : ZkState) (actionPath : ZkPath)
    (actionNode : ActionNode) (version : Nat) (action actionGuid : String)
    (forceRerun : Bool) (dispatch : ActionNode → Option String) :
    ZkState × HAResult :=
  if actionNode.State = .running ∧ forceRerun = false then (s, .waits)
  else if actionNode.State = .failed then (s, .failedState actionNode.Error)
  else if actionNode.State = .done then (s, .doneState)
  else
    let node1 := { actionNode with State := .running }
    match zkSet s actionPath (.actionData node1) (version : Int) with
    | .error e => if e = .zbadversion then (s, .waits) else (s, .zkErr e)
    | .ok s1 =>
      if node1.Action ≠ action ∨ node1.ActionGuid ≠ actionGuid then
        (s1, .invalidInitiation action actionGuid)
      else
        let actionErr := dispatch node1
        match storeActionResponse s1 node1 actionPath actionErr with
        | .error e => (s1, .storeErr e)
        | .ok s2 =>
          match zkDelete s2 actionPath (-1) with
          | .error e => (s2, .zkErr e)
          | .ok s3 => (s3, .completed actionErr)

/-- TabletActor.HandleAction: read the action node with its version and
continue with handleActionFromRead. -/
def handleAction (s : ZkState) (actionPath : ZkPath) (action actionGuid : String)
    (forceRerun : Bool) (dispatch : ActionNode → Option String) :
    ZkState × HAResult :=
  match zkLookup s actionPath with
  | none => (s, .zkErr .znonode)
  | some zn =>
    match zn.data with
    | .strData _ => (s, .decodeErr)
    | .actionData actionNode =>
      handleActionFromRead s actionPath actionNode zn.version action actionGuid
        forceRerun dispatch

/-! ## String utilities for the binlog parser

Byte-slice manipulation of the source is embedded over the character
lists underlying String, with structural recursion throughout so that
every definition evaluates inside the kernel. -/

/-- Prefix test, embedding bytes.HasPrefix. -/
def strStartsWith (s p : String) : Bool :=
  p.data.isPrefixOf s.data

/-- Splitting of a character list at every non-overlapping occurrence of
a separator, embedding bytes.Split; driven by fuel, which the wrapper
sets to the list length. -/
def splitOnFuel (sep : List Char) : Nat → List Char → List Char → List (List Char)
  | 0, l, acc => [acc.reverse ++ l]
  | _ + 1, [], acc => [acc.reverse]
  | fuel + 1, c :: rest, acc =>
    if sep.isPrefixOf (c :: rest) then
      acc.reverse :: splitOnFuel sep fuel ((c :: rest).drop sep.length) []
    else
      splitOnFuel sep fuel rest (c :: acc)

/-- Splitting of a string at every occurrence of a separator, embedding
bytes.Split (the separators used here are never empty). -/
def splitOnStr (s sub : String) : List String :=
  if sub.data.isEmpty then [s]
  else (splitOnFuel sub.data s.data.length s.data []).map (fun l => ⟨l⟩)

/-- Substring occurrence test, embedding a bytes.Index inequality with
-1. -/
def containsSubstr (s sub : String) : Bool :=
  (splitOnStr s sub).length > 1

/-- Join of string pieces with a separator. -/
def joinWith (sep : String) : List String → String
  | [] => ""
  | [x] => x
  | x :: xs => x ++ sep ++ joinWith sep xs

/-- Second element of a bytes.Split result, the piece between the first
and second separator occurrence; the callers in the source index the
split result at 1 only after establishing that the separator occurs. -/
def splitSecond (s sub : String) : String :=
  match splitOnStr s sub with
  | _ :: second :: _ => second
  | _ => ""

/-- Everything after the first occurrence of a separator, embedding
slicing at the index found by bytes.Index plus the separator length. -/
def afterFirst (s sub : String) : String :=
  match splitOnStr s sub with
  | _ :: rest :: more => joinWith sub (rest :: more)
  | _ => ""

/-- Whitespace trim on both ends, embedding bytes.TrimSpace. -/
def strTrim (s : String) : String :=
  ⟨((s.data.dropWhile Char.isWhitespace).reverse.dropWhile Char.isWhitespace).reverse⟩

/-- Lowercasing, embedding bytes.ToLower. -/
def strToLower (s : String) : String :=
  ⟨s.data.map Char.toLower⟩

/-- Decimal digit-list value; none on an empty or non-digit list. -/
def parseNatList (l : List Char) : Option Nat :=
  if l.isEmpty then none
  else if l.all Char.isDigit then
    some (l.foldl (fun acc c => 10 * acc + (c.toNat - 48)) 0)
  else none

/-- Unsigned 64-bit decimal parse, embedding strconv.ParseUint with bit
size 64: no sign, digits only, overflow rejected. -/
def parseUint64 (s : String) : Option Nat :=
  match parseNatList s.data with
  | some n => if n < 2 ^ 64 then some n else none
  | none => none

/-- Signed 64-bit decimal parse, embedding strconv.ParseInt with bit
size 64. -/
def parseInt64 (s : String) : Option Int :=
  match s.data with
  | '-' :: rest =>
    match parseNatList rest with
    | some n => if n ≤ 2 ^ 63 then some (-(n : Int)) else none
    | none => none
  | '+' :: rest =>
    match parseNatList rest with
    | some n => if n < 2 ^ 63 then some ((n : Int)) else none
    | none => none
  | l =>
    match parseNatList l with
    | some n => if n < 2 ^ 63 then some ((n : Int)) else none
    | none => none

/-- First space-separated token of a line, lowercased: the firstKw
computed for every event buffer in the parse loop. -/
def firstKeyword (line : String) : String :=
  strToLower ⟨line.data.takeWhile (fun c => ¬ c = ' ')⟩

/-- Directory part of path.Split: everything through the final slash. -/
def pathDirOf (p : String) : String :=
  let parts := splitOnStr p "/"
  if parts.length ≤ 1 then "" else joinWith "/" parts.dropLast ++ "/"

/-- File part of path.Split: everything after the final slash. -/
def pathFileOf (p : String) : String :=
  (splitOnStr p "/").getLastD p

/-- Join of a directory and a file name, embedding path.Join on the
shapes arising here (a cleaned directory that may carry a trailing
slash). -/
def pathJoin (d f : String) : String :=
  if d = "" then f
  else (⟨(d.data.reverse.dropWhile (fun c => c = '/')).reverse⟩ : String) ++ "/" ++ f

/-! ## Binlog parser state and events -/

/-- Replication coordinates carried by the stream. -/
structure ReplicationCoordinates where
  RelayFilename : String
  MasterFilename : String
  MasterPosition : Nat
deriving DecidableEq, Repr

/-- Position data attached to events and responses. -/
structure BinlogPos where
  coords : ReplicationCoordinates
  Timestamp : Int
  Xid : Nat
deriving DecidableEq, Repr

/-- Raw event buffer gathered during parsing: a snapshot of the current
position, the log line, and its lowercased first keyword. -/
structure EventBuffer where
  pos : BinlogPos
  LogLine : String
  firstKw : String
deriving DecidableEq, Repr

/-- Event buffer construction in the parse loop: the position snapshot
plus the first keyword of the line. -/
def mkEventBuffer (pos : BinlogPos) (line : String) : EventBuffer :=
  { pos := pos, LogLine := line, firstKw := firstKeyword line }

/-- Response record sent to a subscriber.  The encoded opaque Position
string, and the user, index and sequence id enrichment that
createDmlEvent adds to insert events, are not modelled: no claim
mentions them. -/
structure BinlogResponse where
  pos : BinlogPos
  SqlType : String
  Sql : List String
  KeyspaceId : String
deriving DecidableEq, Repr

/-- Parser state of one subscriber session (Blp). -/
structure BlpState where
  nextStmtPosition : Nat
  inTxn : Bool
  txnLineBuffer : List EventBuffer
  initialSeek : Bool
  currentPosition : BinlogPos
  dbmatch : Bool
  usingRelayLogs : Bool
deriving Repr

/-- Keyword map from the parser: sql keyword to statement class. -/
def sqlKwMap : List (String × String) :=
  [("create", "DDL"), ("alter", "DDL"), ("drop", "DDL"), ("truncate", "DDL"),
   ("rename", "DDL"), ("insert", "DML"), ("update", "DML"), ("delete", "DML"),
   ("begin", "BEGIN"), ("commit", "COMMIT")]

/-- Statement class of a first keyword, empty when unknown. -/
def GetSqlType (firstKw : String) : String :=
  (sqlKwMap.lookup firstKw).getD ""

/-- Dml keyword of a first keyword when it is one, empty otherwise. -/
def GetDmlType (firstKw : String) : String :=
  if GetSqlType firstKw = "DML" then firstKw else ""

/-- Modelled from the spec: IsTxnStatement is not under src (only its
caller in the binlog server parse loop is).  Per the line
classification table, the statements buffered inside a transaction are
the DML statements and the insert-id settings. -/
def IsTxnStatement (line : String) (firstKw : String) : Bool :=
  GetSqlType firstKw == "DML" || strStartsWith line "SET INSERT_ID="

/-- Control-db statement test: lowercased sql mentioning the vt sidecar
tables or the admin heartbeat. -/
def controlDbStatement (sql : String) : Bool :=
  let s := strToLower sql
  containsSubstr s "_vt." || (containsSubstr s "admin" && containsSubstr s "heartbeat")

/-- Keyspace id extraction of a DML line, embedding parseKeyspaceId: a
missing EMD comment is tolerated for control statements (none) and is a
parse error otherwise; the decimal id before the user_id marker is
parsed as an unsigned 64-bit value.  The hashing of the id into a byte
key (key.Uint64Key, not under src) is modelled from the spec as the
64-bit value itself, with key ranges compared numerically. -/
def parseKeyspaceId (sql : String) : Except String (Option (String × Nat)) :=
  if containsSubstr sql "/* EMD keyspace_id:" = false then
    if controlDbStatement sql then .ok none
    else .error "Invalid Sql, does not contain keyspace id"
  else
    let keyspaceIdComment := afterFirst sql "/* EMD keyspace_id:"
    let keyspaceIdStr := strTrim ((splitOnStr keyspaceIdComment "user_id").headD "")
    if keyspaceIdStr = "" then .error "Invalid keyspace id"
    else
      match parseUint64 keyspaceIdStr with
      | none => .error "Invalid keyspaceid, error converting it"
      | some kid => .ok (some (keyspaceIdStr, kid))

/-- Response built for the BEGIN event of a transaction. -/
def beginResponse (e : EventBuffer) : BinlogResponse :=
  { pos := e.pos, SqlType := "BEGIN", Sql := [], KeyspaceId := "" }

/-- Response built for the COMMIT event of a transaction, embedding
createCommitEvent. -/
def commitResponse (e : EventBuffer) : BinlogResponse :=
  { pos := e.pos, SqlType := "COMMIT", Sql := [], KeyspaceId := "" }

/-- Response built for one matched DML, embedding createDmlEvent plus
the Sql assembly from the dml buffer. -/
def dmlResponse (e : EventBuffer) (kidStr : String) (sql : List String) : BinlogResponse :=
  { pos := e.pos, SqlType := GetDmlType e.firstKw, Sql := sql, KeyspaceId := kidStr }

/-- Response built for a DDL statement, embedding createDdlStream. -/
def ddlResponse (e : EventBuffer) : BinlogResponse :=
  { pos := e.pos, SqlType := "DDL", Sql := [e.LogLine], KeyspaceId := "" }

/-- Loop of buildTxnResponse: BEGIN and COMMIT lines become their
responses; a DML line has its keyspace id extracted (a missing id on a
control statement skips the line, keeping the dml buffer), is dropped
with the dml buffer cleared when outside the subscriber range, and
otherwise emits a DML response carrying the buffered prefix lines plus
itself; any other line is buffered as a prefix for the next DML. -/
def buildTxnGo (kr : KeyRange) :
    List EventBuffer → List String → Except String (List BinlogResponse × Nat)
  | [], _ => .ok ([], 0)
  | e :: rest, dmlBuffer =>
    if strStartsWith e.LogLine "BEGIN" then
      match buildTxnGo kr rest dmlBuffer with
      | .error m => .error m
      | .ok r => .ok (beginResponse e :: r.1, r.2)
    else if strStartsWith e.LogLine "COMMIT" then
      match buildTxnGo kr rest dmlBuffer with
      | .error m => .error m
      | .ok r => .ok (commitResponse e :: r.1, r.2)
    else if GetSqlType e.firstKw = "DML" then
      match parseKeyspaceId e.LogLine with
      | .error m => .error m
      | .ok none => buildTxnGo kr rest dmlBuffer
      | .ok (some (kidStr, kid)) =>
        if kr.kontains kid = false then buildTxnGo kr rest []
        else
          match buildTxnGo kr rest [] with
          | .error m => .error m
          | .ok r => .ok (dmlResponse e kidStr (dmlBuffer ++ [e.LogLine]) :: r.1, r.2 + 1)
    else
      buildTxnGo kr rest (dmlBuffer ++ [e.LogLine])

/-- Blp.buildTxnResponse: the loop started on an empty dml buffer. -/
def buildTxnResponse (kr : KeyRange) (buffer : List EventBuffer) :
    Except String (List BinlogResponse × Nat) :=
  buildTxnGo kr buffer []

/-- Blp.handleBeginEvent: a BEGIN with a non-empty buffer while in a
transaction is a parse error; otherwise the buffer is reset to hold the
begin event and the in-transaction flag is set. -/
def handleBeginEvent (st : BlpState) (e : EventBuffer) : Except String BlpState :=
  if st.txnLineBuffer.length > 0 ∧ st.inTxn = true then
    .error "BEGIN encountered with non-empty trxn buffer"
  else
    .ok { st with txnLineBuffer := [e], inTxn := true }

/-- Blp.handleCommitEvent: nothing happens for a non-matching database;
otherwise the commit event (tagged with the current transaction id) is
appended, the transaction response is built by filtering DMLs by key
range, and the batch is sent only when at least one DML matched. -/
def handleCommitEvent (kr : KeyRange) (st : BlpState) (e : EventBuffer) :
    Except String (BlpState × Option (List BinlogResponse)) :=
  if st.dbmatch = false then .ok (st, none)
  else
    let e2 := { e with pos := { e.pos with Xid := st.currentPosition.Xid } }
    let buf := st.txnLineBuffer ++ [e2]
    match buildTxnResponse kr buf with
    | .error m => .error m
    | .ok r =>
      if r.2 = 0 then .ok ({ st with txnLineBuffer := buf }, none)
      else .ok ({ st with txnLineBuffer := buf }, some r.1)

/-- Timestamp extraction of a SET TIMESTAMP line. -/
def extractTimestamp (line : String) : Except String Int :=
  let ts : String := ⟨line.data.drop ("SET TIMESTAMP=".length)⟩
  if ts = "" then .error "Invalid timestamp line"
  else
    match parseInt64 ts with
    | some t => .ok t
    | none => .error "Error in extracting timestamp"

/-- Blp.parseEventData, the per-event step of the parse loop: timestamp
lines update the clock (buffered when inside a transaction), BEGIN,
ROLLBACK and COMMIT drive the transaction buffer (the caller clears the
buffer and the flag after COMMIT and ROLLBACK), transaction statements
are buffered, top-level DDL is sent as a single-event batch, a DML
outside a transaction is a parse error, and anything else is ignored.
The returned option is the batch sent to the subscriber, if any. -/
def parseEventData (kr : KeyRange) (st : BlpState) (e : EventBuffer) :
    Except String (BlpState × Option (List BinlogResponse)) :=
  if strStartsWith e.LogLine "SET TIMESTAMP=" then
    match extractTimestamp e.LogLine with
    | .error m => .error m
    | .ok ts =>
      if st.inTxn then
        .ok ({ st with
          currentPosition := { st.currentPosition with Timestamp := ts }
          initialSeek := false
          txnLineBuffer := st.txnLineBuffer ++
            [{ e with pos := { e.pos with Timestamp := ts } }] }, none)
      else
        .ok ({ st with
          currentPosition := { st.currentPosition with Timestamp := ts }
          initialSeek := false }, none)
  else if strStartsWith e.LogLine "BEGIN" then
    match handleBeginEvent st e with
    | .error m => .error m
    | .ok st1 => .ok (st1, none)
  else if strStartsWith e.LogLine "ROLLBACK" then
    .ok ({ st with inTxn := false, txnLineBuffer := [] }, none)
  else if strStartsWith e.LogLine "COMMIT" then
    match handleCommitEvent kr st e with
    | .error m => .error m
    | .ok r => .ok ({ r.1 with inTxn := false, txnLineBuffer := [] }, r.2)
  else if e.LogLine.data.length > 0 then
    if st.inTxn && IsTxnStatement e.LogLine e.firstKw then
      .ok ({ st with txnLineBuffer := st.txnLineBuffer ++ [e] }, none)
    else if GetSqlType e.firstKw = "DDL" then
      .ok (st, some [ddlResponse e])
    else if GetSqlType e.firstKw = "DML" then
      .error "DML outside a txn"
    else
      .ok (st, none)
  else .ok (st, none)

/-! ## Position tracking (part of the binlog server parser) -/

/-- Rotate target filename of a rotate line. -/
def rotFileOf (line : String) : String :=
  strTrim ((splitOnStr (splitSecond line "Rotate to ") " pos: ").headD "")

/-- Rotate target position of a rotate line. -/
def rotPosOf (line : String) : Option Nat :=
  parseUint64 (splitSecond (splitSecond line "Rotate to ") " pos: ")

/-- Statement end position of an end-log-pos line. -/
def endPosOf (line : String) : Option Nat :=
  parseUint64 (((splitOnStr (splitSecond line "end_log_pos ") " ").headD ""))

/-- Transaction id of an Xid line. -/
def xidOf (line : String) : Option Nat :=
  parseUint64 (splitSecond line "Xid = ")

/-- Blp.parseMasterPosition: record the statement end position as the
next statement position. -/
def parseMasterPosition (st : BlpState) (line : String) : Except String BlpState :=
  match endPosOf line with
  | none => .error "Error in extracting master position"
  | some n => .ok { st with nextStmtPosition := n }

/-- Blp.parseXid: record the transaction id on the current position. -/
def parseXid (st : BlpState) (line : String) : Except String BlpState :=
  match xidOf line with
  | none => .error "Error in extracting Xid position"
  | some x =>
    .ok { st with currentPosition := { st.currentPosition with Xid := x } }

/-- Blp.parseRotateEvent: when parsing a binlog directly the rotate
event updates the master coordinate; when parsing relay logs, a rotate
whose filename shares the relay file prefix rotates the relay file
(master coordinate untouched), and any other rotate updates the master
coordinate. -/
def parseRotateEvent (st : BlpState) (line : String) : Except String BlpState :=
  match rotPosOf line with
  | none => .error "Error in extracting rotate pos"
  | some rotatePos =>
    if st.usingRelayLogs = false then
      .ok { st with currentPosition := { st.currentPosition with coords :=
        { st.currentPosition.coords with
          MasterFilename := rotFileOf line, MasterPosition := rotatePos } } }
    else
      if (splitOnStr (pathFileOf st.currentPosition.coords.RelayFilename) ".").headD ""
          = (splitOnStr (rotFileOf line) ".").headD "" then
        .ok { st with currentPosition := { st.currentPosition with coords :=
          { st.currentPosition.coords with
            RelayFilename := pathJoin (pathDirOf st.currentPosition.coords.RelayFilename)
              (rotFileOf line) } } }
      else
        .ok { st with currentPosition := { st.currentPosition with coords :=
          { st.currentPosition.coords with
            MasterFilename := rotFileOf line, MasterPosition := rotatePos } } }

/-- Trailing Xid check shared by the branches of parsePositionData that
do not return early. -/
def xidCheck (st : BlpState) (line : String) : Except String BlpState :=
  if containsSubstr line "Xid = " then parseXid st line else .ok st

/-- Blp.parsePositionData: a position line updates the current master
coordinate from the recorded next statement position, rotate lines are
dispatched to parseRotateEvent, end-log-pos lines (except the binlog
start line) record and apply the next statement position, and an Xid
marker is processed unless an early return was taken. -/
def parsePositionData (st : BlpState) (line : String) : Except String BlpState :=
  if strStartsWith line "# at " then
    if st.nextStmtPosition = 0 then .ok st else xidCheck st line
  else if containsSubstr line "Rotate to " then
    match parseRotateEvent st line with
    | .error m => .error m
    | .ok st1 => xidCheck st1 line
  else if containsSubstr line "end_log_pos " then
    if containsSubstr line "Start: binlog" then .ok st
    else
      match parseMasterPosition st line with
      | .error m => .error m
      | .ok st1 =>
        xidCheck
          (if st1.nextStmtPosition ≠ 0 then
            { st1 with currentPosition := { st1.currentPosition with coords :=
              { st1.currentPosition.coords with
                MasterPosition := st1.nextStmtPosition } } }
          else st1) line
  else xidCheck st line

/-! ## Specification-side definitions for the binlog claims -/

/-- Numeric suffix index of a binlog or relay log filename, as parsed by
the source when comparing files: the decimal value of the second
dot-separated component. -/
def fileIndex (f : String) : Option Nat :=
  parseUint64 ((splitOnStr f ".").getD 1 "")

/-- Ordering of master coordinates stated by the specification:
positions within one filename are ordered by offset, and positions
across filenames by the numeric file-suffix index. -/
def coordLe (c1 c2 : ReplicationCoordinates) : Bool :=
  if c1.MasterFilename = c2.MasterFilename then
    c1.MasterPosition ≤ c2.MasterPosition
  else
    match fileIndex c1.MasterFilename, fileIndex c2.MasterFilename with
    | some i1, some i2 => i1 < i2
    | _, _ => false

/-- Well-formedness of one position line with respect to the state it is
parsed in: an applied end-log-pos value does not regress within the
current file, and a rotate target that updates the master coordinate
(every rotate in binlog mode, and master-file rotates in relay mode)
does not regress either. -/
def wfLine (st : BlpState) (line : String) : Bool :=
  (strStartsWith line "# at " ||
    !(containsSubstr line "Rotate to ") ||
    (st.usingRelayLogs &&
      ((splitOnStr (pathFileOf st.currentPosition.coords.RelayFilename) ".").headD ""
        == (splitOnStr (rotFileOf line) ".").headD "")) ||
    (match rotPosOf line with
     | none => true
     | some p =>
       coordLe st.currentPosition.coords
         { RelayFilename := st.currentPosition.coords.RelayFilename,
           MasterFilename := rotFileOf line, MasterPosition := p })) &&
  (strStartsWith line "# at " ||
    containsSubstr line "Rotate to " ||
    !(containsSubstr line "end_log_pos ") ||
    containsSubstr line "Start: binlog" ||
    (match endPosOf line with
     | none => true
     | some n =>
       n == 0 || decide (st.currentPosition.coords.MasterPosition ≤ n)))

/-- Well-formedness of a whole line sequence, each line with respect to
the state reached before it. -/
def wfTrace : BlpState → List String → Bool
  | _, [] => true
  | st, l :: ls =>
    wfLine st l &&
    (match parsePositionData st l with
     | .error _ => true
     | .ok st1 => wfTrace st1 ls)

/-- Master coordinates after each successfully parsed position line; a
parse error ends the stream. -/
def coordTrace (st : BlpState) : List String → List ReplicationCoordinates
  | [] => []
  | l :: ls =>
    match parsePositionData st l with
    | .error _ => []
    | .ok st1 => st1.currentPosition.coords :: coordTrace st1 ls

/-- DML events of a transaction buffer whose extracted keyspace id lies
in the subscriber key range: the specification-side filter for the
transaction response. -/
def dmlMatchVal (kr : KeyRange) (e : EventBuffer) : Bool :=
  match parseKeyspaceId e.LogLine with
  | .ok (some (_, kid)) => kr.kontains kid
  | _ => false

def inRangeDmls (kr : KeyRange) (events : List EventBuffer) : List EventBuffer :=
  events.filter (fun e => GetSqlType e.firstKw == "DML" && dmlMatchVal kr e)

/-- Keyspace id string of a DML event, as extracted by the parser. -/
def dmlKidStr (e : EventBuffer) : String :=
  match parseKeyspaceId e.LogLine with
  | .ok (some (s, _)) => s
  | _ => ""

/-- Observable summary of a response: statement class, keyspace id and
position. -/
def respSummary (r : BinlogResponse) : String × String × BinlogPos :=
  (r.SqlType, r.KeyspaceId, r.pos)

/-- Expected summary of the begin response of a transaction. -/
def beginSummary (e : EventBuffer) : String × String × BinlogPos :=
  ("BEGIN", "", e.pos)

/-- Expected summary of the commit response of a transaction. -/
def commitSummary (e : EventBuffer) : String × String × BinlogPos :=
  ("COMMIT", "", e.pos)

/-- Expected summary of the response of one matched DML. -/
def dmlSummary (e : EventBuffer) : String × String × BinlogPos :=
  (GetDmlType e.firstKw, dmlKidStr e, e.pos)

/-- Shape invariant of the transaction buffer: outside a transaction the
buffer is empty, and inside one it holds the begin event followed by
buffered lines none of which starts another BEGIN or a COMMIT. -/
def blpInv (st : BlpState) : Prop :=
  (st.inTxn = false → st.txnLineBuffer = []) ∧
  (st.inTxn = true → ∃ b mid, st.txnLineBuffer = b :: mid ∧
    strStartsWith b.LogLine "BEGIN" = true ∧
    ∀ e ∈ mid, strStartsWith e.LogLine "BEGIN" = false ∧
      strStartsWith e.LogLine "COMMIT" = false)

/-- Concrete sample transaction used to evaluate the binlog claims. -/
def samplePos : BinlogPos :=
  { coords := { RelayFilename := "", MasterFilename := "bin.000001",
                MasterPosition := 4 },
    Timestamp := 0, Xid := 0 }

def sampleBeginEvt : EventBuffer := mkEventBuffer samplePos "BEGIN"

def sampleDmlEvt : EventBuffer :=
  mkEventBuffer samplePos
    "insert into t (msg) values (1) /* EMD keyspace_id:3 user_id 1 */"

def sampleCommitEvt : EventBuffer := mkEventBuffer samplePos "COMMIT"

def sampleRange : KeyRange := { Start := 0, End := none }

def sampleBlp : BlpState :=
  { nextStmtPosition := 0, inTxn := true,
    txnLineBuffer := [sampleBeginEvt, sampleDmlEvt], initialSeek := false,
    currentPosition := samplePos, dbmatch := true, usingRelayLogs := false }

def sampleSentBatch : List BinlogResponse :=
  [beginResponse sampleBeginEvt,
   dmlResponse sampleDmlEvt "3" [sampleDmlEvt.LogLine],
   commitResponse sampleCommitEvt]

def sampleEndState : BlpState :=
  { sampleBlp with
    txnLineBuffer := [sampleBeginEvt, sampleDmlEvt, sampleCommitEvt] }

/-- Concrete sample position-line trace used to evaluate the
monotonicity claim. -/
def samplePosState : BlpState :=
  { nextStmtPosition := 0, inTxn := false, txnLineBuffer := [],
    initialSeek := false, currentPosition := samplePos, dbmatch := true,
    usingRelayLogs := false }

def sampleLines : List String :=
  ["# end_log_pos 200 Query", "# Rotate to bin.000002  pos: 4"]

/-- Outcome observed by a waiter on the action log path. -/
inductive WaitResult where
  | done (node : ActionNode)
  | failed (err : String)
deriving DecidableEq, Repr

/-- Modelled from the spec: WaitForCompletion is not under src (only its
callers are).  Per the completion-waiter section it watches for the
action log path of the action, reads the terminal node there, returns
the node when its state is done and wraps the recorded error when the
state is failed.  none models a wait that has not yet completed. -/
def waitForCompletion (s : ZkState) (actionPath : ZkPath) : Option WaitResult :=
  match zkLookup s (actionToActionLogPath actionPath) with
  | none => none
  | some zn =>
    match zn.data with
    | .actionData node =>
      if node.State = .done then some (.done node)
      else if node.State = .failed then some (.failed node.Error)
      else none
    | .strData _ => none

end Vitess

namespace Vitess

/-! ## Lemmas about rebuild -/

theorem rebuildStep_keyRange (tmp : Shard) (t : Tablet) :
    (rebuildStep tmp t).keyRange = tmp.keyRange := by
  unfold rebuildStep
  cases t.ttype <;> rfl

theorem rebuildStep_master (tmp : Shard) (t : Tablet) :
    (rebuildStep tmp t).MasterAlias
      = if isMaster t then tabletAlias t else tmp.MasterAlias := by
  unfold rebuildStep isMaster
  cases t.ttype <;> simp

theorem rebuildStep_replicas (tmp : Shard) (t : Tablet) :
    (rebuildStep tmp t).ReplicaAliases
      = tmp.ReplicaAliases ++ (if isReplica t then [tabletAlias t] else []) := by
  unfold rebuildStep isReplica
  cases t.ttype <;> simp

theorem rebuildStep_rdonly (tmp : Shard) (t : Tablet) :
    (rebuildStep tmp t).RdonlyAliases
      = tmp.RdonlyAliases ++ (if isRdonly t then [tabletAlias t] else []) := by
  unfold rebuildStep isRdonly
  cases t.ttype <;> simp

theorem rebuildAux_ok_of_all_eq (ts : List Tablet) (tmp : Shard)
    (h : ∀ t ∈ ts, t.keyRange = tmp.keyRange) :
    rebuildAux tmp false ts = .ok (ts.foldl rebuildStep tmp) := by
  induction ts generalizing tmp with
  | nil => rfl
  | cons t rest ih =>
    have ht : t.keyRange = tmp.keyRange := h t (List.mem_cons_self t rest)
    have hkr : (rebuildStep tmp t).keyRange = t.keyRange := by
      rw [rebuildStep_keyRange, ht]
    simp only [rebuildAux, if_neg (Bool.false_ne_true), hkr, if_pos rfl,
      List.foldl_cons]
    exact ih (rebuildStep tmp t) (fun u hu => by
      rw [rebuildStep_keyRange]
      exact h u (List.mem_cons_of_mem t hu))

theorem rebuildAux_error_of_mismatch (ts : List Tablet) (tmp : Shard)
    (h : ∃ t ∈ ts, t.keyRange ≠ tmp.keyRange) :
    rebuildAux tmp false ts = .error "inconsistent KeyRange" := by
  induction ts generalizing tmp with
  | nil => obtain ⟨t, ht, _⟩ := h; cases ht
  | cons t rest ih =>
    by_cases hkr : t.keyRange = tmp.keyRange
    · have hkr1 : (rebuildStep tmp t).keyRange = t.keyRange := by
        rw [rebuildStep_keyRange, hkr]
      simp only [rebuildAux, if_neg (Bool.false_ne_true), hkr1, if_pos rfl]
      apply ih
      obtain ⟨u, hu, hne⟩ := h
      rcases List.mem_cons.mp hu with h1 | h1
      · exact absurd (h1 ▸ hkr) hne
      · exact ⟨u, h1, by rw [rebuildStep_keyRange]; exact hne⟩
    · have hkr1 : ¬ (rebuildStep tmp t).keyRange = t.keyRange := by
        rw [rebuildStep_keyRange]; exact fun hc => hkr hc.symm
      simp only [rebuildAux, if_neg (Bool.false_ne_true), if_neg hkr1]

theorem foldl_rebuildStep_replicas (ts : List Tablet) (tmp : Shard) :
    (ts.foldl rebuildStep tmp).ReplicaAliases
      = tmp.ReplicaAliases ++ (ts.filter isReplica).map tabletAlias := by
  induction ts generalizing tmp with
  | nil => simp
  | cons t rest ih =>
    rw [List.foldl_cons, ih, rebuildStep_replicas, List.filter_cons]
    cases isReplica t <;> simp

theorem foldl_rebuildStep_rdonly (ts : List Tablet) (tmp : Shard) :
    (ts.foldl rebuildStep tmp).RdonlyAliases
      = tmp.RdonlyAliases ++ (ts.filter isRdonly).map tabletAlias := by
  induction ts generalizing tmp with
  | nil => simp
  | cons t rest ih =>
    rw [List.foldl_cons, ih, rebuildStep_rdonly, List.filter_cons]
    cases isRdonly t <;> simp

theorem foldl_rebuildStep_master (ts : List Tablet) (tmp : Shard) :
    (ts.foldl rebuildStep tmp).MasterAlias
      = ((ts.filter isMaster).map tabletAlias).getLastD tmp.MasterAlias := by
  induction ts generalizing tmp with
  | nil => simp
  | cons t rest ih =>
    rw [List.foldl_cons, ih, rebuildStep_master, List.filter_cons]
    cases isMaster t
    · simp
    · simp only [if_true, List.map_cons]
      rw [List.getLastD_cons]

theorem foldl_rebuildStep_keyRange (ts : List Tablet) (tmp : Shard) :
    (ts.foldl rebuildStep tmp).keyRange = tmp.keyRange := by
  induction ts generalizing tmp with
  | nil => rfl
  | cons t rest ih => rw [List.foldl_cons, ih, rebuildStep_keyRange]

theorem rebuild_ok_spec (t0 : Tablet) (rest : List Tablet)
    (h : ∀ t ∈ rest, t.keyRange = t0.keyRange) :
    rebuild (t0 :: rest)
      = .ok (rest.foldl rebuildStep
          { rebuildStep newShard t0 with keyRange := t0.keyRange }) := by
  unfold rebuild rebuildAux
  simp only [if_pos rfl]
  exact rebuildAux_ok_of_all_eq rest _ (fun t ht => h t ht)

theorem rebuild_error_spec (t0 : Tablet) (rest : List Tablet)
    (h : ∃ t ∈ rest, t.keyRange ≠ t0.keyRange) :
    rebuild (t0 :: rest) = .error "inconsistent KeyRange" := by
  unfold rebuild rebuildAux
  simp only [if_pos rfl]
  exact rebuildAux_error_of_mismatch rest _ h

theorem rebuild_ok_characterization (t0 : Tablet) (rest : List Tablet)
    (h : ∀ t ∈ rest, t.keyRange = t0.keyRange) :
    ∃ s, rebuild (t0 :: rest) = .ok s ∧
      s.ReplicaAliases = ((t0 :: rest).filter isReplica).map tabletAlias ∧
      s.RdonlyAliases = ((t0 :: rest).filter isRdonly).map tabletAlias ∧
      s.MasterAlias
        = (((t0 :: rest).filter isMaster).map tabletAlias).getLastD newShard.MasterAlias ∧
      s.keyRange = t0.keyRange := by
  have hok := rebuild_ok_spec t0 rest h
  refine ⟨_, hok, ?_, ?_, ?_, ?_⟩
  · rw [foldl_rebuildStep_replicas]
    show (rebuildStep newShard t0).ReplicaAliases ++ _ = _
    rw [rebuildStep_replicas, List.filter_cons]
    cases isReplica t0 <;> simp [newShard]
  · rw [foldl_rebuildStep_rdonly]
    show (rebuildStep newShard t0).RdonlyAliases ++ _ = _
    rw [rebuildStep_rdonly, List.filter_cons]
    cases isRdonly t0 <;> simp [newShard]
  · rw [foldl_rebuildStep_master]
    show ((rest.filter isMaster).map tabletAlias).getLastD
      (rebuildStep newShard t0).MasterAlias = _
    rw [rebuildStep_master, List.filter_cons]
    cases isMaster t0
    · simp
    · simp only [if_true, List.map_cons]
      rw [List.getLastD_cons]
  · rw [foldl_rebuildStep_keyRange]

theorem rebuildAux_error_elim (ts : List Tablet) (tmp : Shard) (e : String)
    (h : rebuildAux tmp false ts = .error e) :
    e = "inconsistent KeyRange" ∧ ∃ t ∈ ts, t.keyRange ≠ tmp.keyRange := by
  induction ts generalizing tmp with
  | nil => exact absurd h (by simp [rebuildAux])
  | cons t rest ih =>
    by_cases hkr : t.keyRange = tmp.keyRange
    · have hkr1 : (rebuildStep tmp t).keyRange = t.keyRange := by
        rw [rebuildStep_keyRange, hkr]
      simp only [rebuildAux, if_neg (Bool.false_ne_true), hkr1, if_pos rfl] at h
      obtain ⟨he, u, hu, hne⟩ := ih (rebuildStep tmp t) h
      rw [rebuildStep_keyRange] at hne
      exact ⟨he, u, List.mem_cons_of_mem t hu, hne⟩
    · have hkr1 : ¬ (rebuildStep tmp t).keyRange = t.keyRange := by
        rw [rebuildStep_keyRange]; exact fun hc => hkr hc.symm
      simp only [rebuildAux, if_neg (Bool.false_ne_true), if_neg hkr1] at h
      exact ⟨(Except.error.injEq _ _).mp h.symm, t, List.mem_cons_self t rest, hkr⟩

/-- C7. Rebuild on a nonempty member list whose key ranges all agree
succeeds: the replica and rdonly alias lists are exactly the input tablets
of those types in order, the master alias matches the unique master when
there is exactly one, and the key range is the common member key range.
When some member disagrees with the first ones key range, Rebuild returns
the inconsistent-KeyRange error and the old shard record is kept, not
replaced by a partial result. -/
theorem rebuild_partitions_and_checks_keyrange
    (old : Shard) (ts : List Tablet) :
    (∀ kr : KeyRange, ts ≠ [] → (∀ t ∈ ts, t.keyRange = kr) →
      ∃ s, rebuild ts = .ok s ∧
        s.ReplicaAliases = (ts.filter isReplica).map tabletAlias ∧
        s.RdonlyAliases = (ts.filter isRdonly).map tabletAlias ∧
        (∀ m, ts.filter isMaster = [m] → s.MasterAlias = tabletAlias m) ∧
        s.keyRange = kr ∧
        shardInfoRebuild old ts = (s, none)) ∧
    (∀ t0 rest, ts = t0 :: rest → (∃ t ∈ rest, t.keyRange ≠ t0.keyRange) →
      rebuild ts = .error "inconsistent KeyRange" ∧
      shardInfoRebuild old ts = (old, some "inconsistent KeyRange")) := by
  constructor
  · intro kr hne hkr
    obtain ⟨t0, rest, rfl⟩ := List.exists_cons_of_ne_nil hne
    have h0 : t0.keyRange = kr := hkr t0 (List.mem_cons_self t0 rest)
    have hrest : ∀ t ∈ rest, t.keyRange = t0.keyRange := fun t ht =>
      (hkr t (List.mem_cons_of_mem t0 ht)).trans h0.symm
    obtain ⟨s, hok, hrep, hrd, hmast, hkrs⟩ := rebuild_ok_characterization t0 rest hrest
    refine ⟨s, hok, hrep, hrd, ?_, hkrs.trans h0, ?_⟩
    · intro m hm
      rw [hmast, hm]
      rfl
    · unfold shardInfoRebuild
      rw [hok]
  · intro t0 rest hts hmis
    subst hts
    have herr := rebuild_error_spec t0 rest hmis
    exact ⟨herr, by unfold shardInfoRebuild; rw [herr]⟩

/-- Witness for C7: a concrete two-member shard with matching key ranges
rebuilds as described, and a concrete mismatched pair yields the error
with the old record kept. -/
theorem rebuild_partitions_and_checks_keyrange_witness :
    (∃ s, rebuild [⟨"c", 1, .master, ⟨0, none⟩⟩, ⟨"c", 2, .replica, ⟨0, none⟩⟩]
        = .ok s ∧
      s.ReplicaAliases
        = (([⟨"c", 1, .master, ⟨0, none⟩⟩,
             ⟨"c", 2, .replica, ⟨0, none⟩⟩] : List Tablet).filter isReplica).map tabletAlias ∧
      s.RdonlyAliases
        = (([⟨"c", 1, .master, ⟨0, none⟩⟩,
             ⟨"c", 2, .replica, ⟨0, none⟩⟩] : List Tablet).filter isRdonly).map tabletAlias ∧
      (∀ m, ([⟨"c", 1, .master, ⟨0, none⟩⟩,
              ⟨"c", 2, .replica, ⟨0, none⟩⟩] : List Tablet).filter isMaster = [m] →
        s.MasterAlias = tabletAlias m) ∧
      s.keyRange = ⟨0, none⟩ ∧
      shardInfoRebuild newShard
        [⟨"c", 1, .master, ⟨0, none⟩⟩, ⟨"c", 2, .replica, ⟨0, none⟩⟩] = (s, none)) ∧
    (rebuild [⟨"c", 1, .master, ⟨0, none⟩⟩, ⟨"c", 2, .replica, ⟨0, some 5⟩⟩]
        = .error "inconsistent KeyRange" ∧
      shardInfoRebuild newShard
        [⟨"c", 1, .master, ⟨0, none⟩⟩, ⟨"c", 2, .replica, ⟨0, some 5⟩⟩]
        = (newShard, some "inconsistent KeyRange")) := by
  constructor
  · exact (rebuild_partitions_and_checks_keyrange newShard _).1
      ⟨0, none⟩ (by decide) (by decide)
  · exact (rebuild_partitions_and_checks_keyrange newShard _).2
      ⟨"c", 1, .master, ⟨0, none⟩⟩ [⟨"c", 2, .replica, ⟨0, some 5⟩⟩] rfl
      ⟨⟨"c", 2, .replica, ⟨0, some 5⟩⟩, by decide, by decide⟩

/-- C10. Rebuild never reports a membership error: every error it can
return is the inconsistent-KeyRange error caused by a member whose key
range differs from the first members, tablets of types other than master,
replica and rdonly end up in no alias set, and with several masters the
last one in input order silently becomes MasterAlias (no master in the
input leaves the zero alias). -/
theorem rebuild_never_membership_error (ts : List Tablet) :
    (∀ e, rebuild ts = .error e →
      e = "inconsistent KeyRange" ∧
      ∃ t0 rest, ts = t0 :: rest ∧ ∃ t ∈ rest, t.keyRange ≠ t0.keyRange) ∧
    (∀ kr : KeyRange, (∀ t ∈ ts, t.keyRange = kr) →
      ∃ s, rebuild ts = .ok s ∧
        (∀ a ∈ s.ReplicaAliases, ∃ t ∈ ts, isReplica t ∧ tabletAlias t = a) ∧
        (∀ a ∈ s.RdonlyAliases, ∃ t ∈ ts, isRdonly t ∧ tabletAlias t = a) ∧
        (ts.filter isMaster = [] → s.MasterAlias = newShard.MasterAlias) ∧
        (∀ m, (ts.filter isMaster).getLast? = some m →
          s.MasterAlias = tabletAlias m)) := by
  constructor
  · intro e he
    cases ts with
    | nil => exact absurd he (by simp [rebuild, rebuildAux])
    | cons t0 rest =>
      unfold rebuild rebuildAux at he
      simp only [if_pos rfl] at he
      obtain ⟨he1, u, hu, hne⟩ := rebuildAux_error_elim rest _ e he
      refine ⟨he1, t0, rest, rfl, u, hu, ?_⟩
      simpa using hne
  · intro kr hkr
    cases ts with
    | nil =>
      refine ⟨newShard, rfl, by simp [newShard], by simp [newShard], fun _ => rfl, ?_⟩
      intro m hm
      simp at hm
    | cons t0 rest =>
      have hrest : ∀ t ∈ rest, t.keyRange = t0.keyRange := fun t ht =>
        (hkr t (List.mem_cons_of_mem t0 ht)).trans
          (hkr t0 (List.mem_cons_self t0 rest)).symm
      obtain ⟨s, hok, hrep, hrd, hmast, _⟩ := rebuild_ok_characterization t0 rest hrest
      refine ⟨s, hok, ?_, ?_, ?_, ?_⟩
      · intro a ha
        rw [hrep] at ha
        obtain ⟨t, ht, rfl⟩ := List.mem_map.mp ha
        exact ⟨t, List.mem_of_mem_filter ht, List.of_mem_filter ht, rfl⟩
      · intro a ha
        rw [hrd] at ha
        obtain ⟨t, ht, rfl⟩ := List.mem_map.mp ha
        exact ⟨t, List.mem_of_mem_filter ht, List.of_mem_filter ht, rfl⟩
      · intro hnil
        rw [hmast, hnil]
        rfl
      · intro m hm
        rw [hmast, List.getLastD_eq_getLast?, List.getLast?_map, hm]
        rfl

/-- Witness for C10: a concrete input with two masters and a spare, all
sharing one key range, rebuilds with the second master winning, the spare
in no alias set, and no error. -/
theorem rebuild_never_membership_error_witness :
    ∃ s, rebuild [⟨"c", 1, .master, ⟨0, none⟩⟩, ⟨"c", 7, .spare, ⟨0, none⟩⟩,
        ⟨"c", 2, .master, ⟨0, none⟩⟩] = .ok s ∧
      (∀ a ∈ s.ReplicaAliases, ∃ t ∈ ([⟨"c", 1, .master, ⟨0, none⟩⟩,
          ⟨"c", 7, .spare, ⟨0, none⟩⟩,
          ⟨"c", 2, .master, ⟨0, none⟩⟩] : List Tablet), isReplica t ∧ tabletAlias t = a) ∧
      (∀ a ∈ s.RdonlyAliases, ∃ t ∈ ([⟨"c", 1, .master, ⟨0, none⟩⟩,
          ⟨"c", 7, .spare, ⟨0, none⟩⟩,
          ⟨"c", 2, .master, ⟨0, none⟩⟩] : List Tablet), isRdonly t ∧ tabletAlias t = a) ∧
      (([⟨"c", 1, .master, ⟨0, none⟩⟩, ⟨"c", 7, .spare, ⟨0, none⟩⟩,
         ⟨"c", 2, .master, ⟨0, none⟩⟩] : List Tablet).filter isMaster = [] →
        s.MasterAlias = newShard.MasterAlias) ∧
      (∀ m, (([⟨"c", 1, .master, ⟨0, none⟩⟩, ⟨"c", 7, .spare, ⟨0, none⟩⟩,
          ⟨"c", 2, .master, ⟨0, none⟩⟩] : List Tablet).filter isMaster).getLast? = some m →
        s.MasterAlias = tabletAlias m) :=
  (rebuild_never_membership_error _).2 ⟨0, none⟩ (by decide)

/-! ## Theorems about the binlog reader seek -/

/-- C6 counterexample: with files of sizes 10 and 20 and start offset 15,
the HTTP entry point serve lands in the second file at offset 5, but
ServeData refuses to serve at all, so the claim that ServeData also walks
to subsequent files is false. -/
theorem serveData_does_not_walk_counterexample :
    serveSeek [10, 20] 15 = some (1, 5) ∧ serveDataSeek [10, 20] 15 = none := by
  constructor <;> rfl

/-- C6 amended. Only BinlogReader.serve walks across files: for a
positive start offset, it subtracts each file size from the remaining
offset until the offset lands within a file (landing file index and
in-file offset reconstruct the requested offset), a start offset beyond
all existing files fails rather than serving data, and ServeData fails
immediately whenever the start offset exceeds the size of the starting
file. -/
theorem serve_seek_walks_files (sizes : List Nat) (p : Nat) (hp : 0 < p) :
    (∀ i q, serveSeek sizes p = some (i, q) →
      ∃ h : i < sizes.length, 0 < q ∧ q ≤ sizes.get ⟨i, h⟩ ∧
        p = (sizes.take i).sum + q) ∧
    (serveSeek sizes p = none ↔ sizes.sum < p) ∧
    (∀ s rest, sizes = s :: rest → s < p → serveDataSeek sizes p = none) := by
  refine ⟨?_, ?_, ?_⟩
  · intro i q
    induction sizes generalizing p i with
    | nil => intro hsome; exact absurd hsome (by simp [serveSeek])
    | cons s rest ih =>
      intro hsome
      by_cases hcmp : p > s
      · simp only [serveSeek, if_pos hcmp] at hsome
        obtain ⟨⟨j, q0⟩, hj, hpair⟩ := Option.map_eq_some'.mp hsome
        obtain ⟨hi, hq⟩ := Prod.mk.inj hpair
        subst hi
        subst hq
        have hps : 0 < p - s := Nat.sub_pos_of_lt hcmp
        obtain ⟨hlt, hq0, hle, hsum⟩ := ih (p - s) hps j hj
        refine ⟨Nat.succ_lt_succ hlt, hq0, hle, ?_⟩
        simp only [List.take_succ_cons, List.sum_cons]
        omega
      · simp only [serveSeek, if_neg hcmp] at hsome
        obtain ⟨hi, hq⟩ := Prod.mk.inj (Option.some.inj hsome)
        subst hi
        subst hq
        exact ⟨Nat.succ_pos _, hp, Nat.le_of_not_lt hcmp, by simp⟩
  · induction sizes generalizing p with
    | nil => simpa [serveSeek] using hp
    | cons s rest ih =>
      by_cases hcmp : p > s
      · have hps : 0 < p - s := Nat.sub_pos_of_lt hcmp
        simp only [serveSeek, if_pos hcmp, Option.map_eq_none', List.sum_cons]
        rw [ih (p - s) hps]
        omega
      · simp only [serveSeek, if_neg hcmp, List.sum_cons]
        constructor
        · intro h; cases h
        · intro h; omega
  · intro s rest hs hlt
    subst hs
    simp [serveDataSeek, hlt]

/-- Witness for the amended C6 theorem at sizes 10 and 20 with start
offset 15: serve lands in the second file at offset 5 with 15 = 10 + 5,
the seek does not fail since 15 is not beyond 30, and ServeData fails
since 15 exceeds 10. -/
theorem serve_seek_walks_files_witness :
    (∀ i q, serveSeek [10, 20] 15 = some (i, q) →
      ∃ h : i < ([10, 20] : List Nat).length, 0 < q ∧ q ≤ ([10, 20] : List Nat).get ⟨i, h⟩ ∧
        15 = (([10, 20] : List Nat).take i).sum + q) ∧
    (serveSeek [10, 20] 15 = none ↔ ([10, 20] : List Nat).sum < 15) ∧
    (∀ s rest, ([10, 20] : List Nat) = s :: rest → s < 15 →
      serveDataSeek [10, 20] 15 = none) :=
  serve_seek_walks_files [10, 20] 15 (by decide)

/-! ## Theorems about the throttle ticker -/

/-- C8 counterexample: one subscriber at 2 qps with ceiling 1 is assigned
a sleep of 30000000 nanoseconds (30 milliseconds), while the claimed
formula tick times (qps - max) over qps gives 30000000000 nanoseconds (30
seconds); the two differ by a factor of 1000. -/
theorem throttle_sleep_formula_counterexample :
    throttleTick 1 [("DmlCount.A", [2])] "A" 0 = 30000000 ∧
    claimedThrottleSleepNs 2 1 = 30000000000 ∧
    (30000000 : ℚ) ≠ 30000000000 := by
  have hs : ("DmlCount." ++ "A" == "DmlCount.A") = true := rfl
  refine ⟨?_, ?_, by norm_num⟩
  · have havg : avgRate [2] = 2 := by
      simp [avgRate]
    simp only [throttleTick, List.map_cons, List.map_nil, havg, List.sum_cons,
      List.sum_nil, List.length_cons, List.length_nil, List.lookup, hs]
    norm_num [truncQ, tickerIntervalSeconds, Int.floor_ofNat]
  · simp only [claimedThrottleSleepNs, tickerIntervalNs]
    norm_num

/-- C8 amended. When the ticker finds the total rate above a nonzero
ceiling, a subscriber whose rate exceeds the fair share ceiling divided
by number of subscribers is assigned the claimed sleep reinterpreted in
milliseconds: the number of seconds tick times (qps - max) over qps,
truncated to an integer and taken as a count of milliseconds (a factor
1000 below the claimed duration); a subscriber at or below the fair
share is assigned zero sleep. -/
theorem throttle_sleep_is_truncated_milliseconds
    (throttleRate : ℚ) (rateMap : List (String × List ℚ)) (tag : String) (cur : ℚ)
    (hrate : ¬ throttleRate = 0)
    (htot : ((rateMap.map (fun kv => (kv.1, avgRate kv.2))).map Prod.snd).sum
      > throttleRate)
    (krQps : ℚ)
    (hlook : (rateMap.map (fun kv => (kv.1, avgRate kv.2))).lookup
      ("DmlCount." ++ tag) = some krQps) :
    (krQps > throttleRate / (rateMap.length : ℚ) →
      throttleTick throttleRate rateMap tag cur
        = (truncQ (claimedThrottleSleepNs krQps (throttleRate / (rateMap.length : ℚ))
            / 10 ^ 9) : ℚ) * 10 ^ 6) ∧
    (¬ krQps > throttleRate / (rateMap.length : ℚ) →
      throttleTick throttleRate rateMap tag cur = 0) := by
  have hlen : ((rateMap.map (fun kv => (kv.1, avgRate kv.2))).length : ℚ)
      = (rateMap.length : ℚ) := by
    rw [List.length_map]
  have hdiv : ∀ m : ℚ, claimedThrottleSleepNs krQps m / 10 ^ 9
      = tickerIntervalSeconds * ((krQps - m) / krQps) := by
    intro m
    unfold claimedThrottleSleepNs tickerIntervalNs tickerIntervalSeconds
    ring
  constructor
  · intro hover
    simp only [throttleTick, if_neg hrate, if_pos htot, hlook, hlen,
      if_pos hover, hdiv]
    norm_num
  · intro hover
    simp only [throttleTick, if_neg hrate, if_pos htot, hlook, hlen,
      if_neg hover]

/-! ## Lemmas about the zookeeper model -/

theorem zkLookup_zkRemove_self (s : ZkState) (p : ZkPath) :
    zkLookup (zkRemove s p) p = none := by
  induction s with
  | nil => rfl
  | cons e es ih =>
    by_cases he : e.1 = p
    · simp only [zkRemove, if_pos he]
      exact ih
    · simp only [zkRemove, if_neg he, zkLookup, if_neg he]
      exact ih

theorem zkLookup_zkRemove_ne (s : ZkState) (p q : ZkPath) (hne : q ≠ p) :
    zkLookup (zkRemove s p) q = zkLookup s q := by
  induction s with
  | nil => rfl
  | cons e es ih =>
    by_cases he : e.1 = p
    · have heq : ¬ e.1 = q := fun h => hne (h.symm.trans he)
      simp only [zkRemove, if_pos he, zkLookup, if_neg heq]
      exact ih
    · by_cases heq : e.1 = q
      · simp only [zkRemove, if_neg he, zkLookup, if_pos heq]
      · simp only [zkRemove, if_neg he, zkLookup, if_neg heq]
        exact ih

theorem zkLookup_zkStore_self (s : ZkState) (p : ZkPath) (n : ZkNode) :
    zkLookup (zkStore s p n) p = some n := by
  simp [zkStore, zkLookup]

theorem zkLookup_zkStore_ne (s : ZkState) (p q : ZkPath) (n : ZkNode) (hne : q ≠ p) :
    zkLookup (zkStore s p n) q = zkLookup s q := by
  unfold zkStore
  simp only [zkLookup, if_neg (fun h : p = q => hne h.symm)]
  exact zkLookup_zkRemove_ne s p q hne

theorem zkRemove_subset (s : ZkState) (p : ZkPath) (e : ZkPath × ZkNode)
    (h : e ∈ zkRemove s p) : e ∈ s := by
  induction s with
  | nil => exact absurd h (by simp [zkRemove])
  | cons f fs ih =>
    by_cases hf : f.1 = p
    · simp only [zkRemove, if_pos hf] at h
      exact List.mem_cons_of_mem f (ih h)
    · simp only [zkRemove, if_neg hf] at h
      rcases List.mem_cons.mp h with h1 | h1
      · exact h1 ▸ List.mem_cons_self f fs
      · exact List.mem_cons_of_mem f (ih h1)

theorem zkHasChild_zkRemove_imp (s : ZkState) (p q : ZkPath)
    (h : zkHasChild (zkRemove s p) q = true) : zkHasChild s q = true := by
  unfold zkHasChild at h ⊢
  obtain ⟨e, he, hfe⟩ := List.any_eq_true.mp h
  exact List.any_eq_true.mpr ⟨e, zkRemove_subset s p e he, hfe⟩

theorem zkHasChild_zkStore_imp (s : ZkState) (p q : ZkPath) (n : ZkNode)
    (h : zkHasChild (zkStore s p n) q = true) :
    p.dropLast = q ∨ zkHasChild s q = true := by
  unfold zkStore at h
  rw [zkHasChild, List.any_cons] at h
  rcases Bool.or_eq_true _ _ ▸ h with h1 | h1
  · exact Or.inl (eq_of_beq h1)
  · exact Or.inr (zkHasChild_zkRemove_imp s p q h1)

theorem zkCreate_ok_elim (s s1 : ZkState) (p : ZkPath) (d : NodeData)
    (h : zkCreate s p d = .ok s1) :
    zkLookup s p = none ∧ parentExists s p = true ∧ s1 = zkStore s p ⟨d, 0⟩ := by
  unfold zkCreate at h
  cases hl : zkLookup s p with
  | some zn => rw [hl] at h; cases h
  | none =>
    rw [hl] at h
    cases hp : parentExists s p with
    | false => rw [hp] at h; simp at h
    | true =>
      rw [hp] at h
      simp only [if_pos rfl] at h
      exact ⟨rfl, rfl, (Except.ok.inj h).symm⟩

theorem zkCreate_znonode_elim (s : ZkState) (p : ZkPath) (d : NodeData)
    (h : zkCreate s p d = .error .znonode) : zkLookup s p = none := by
  unfold zkCreate at h
  cases hl : zkLookup s p with
  | some zn => rw [hl] at h; cases h
  | none => rfl

theorem storeActionResponse_ok_elim (s s2 : ZkState) (node : ActionNode)
    (p : ZkPath) (err : Option String)
    (h : storeActionResponse s node p err = .ok s2) :
    zkLookup s (actionToActionLogPath p) = none ∧
    zkLookup s2 (actionToActionLogPath p)
      = some ⟨.actionData (terminalNode node err), 0⟩ := by
  simp only [storeActionResponse] at h
  split at h
  next sA hA =>
    obtain ⟨hnone, _, hsA⟩ := zkCreate_ok_elim _ _ _ _ hA
    obtain rfl := Except.ok.inj h
    refine ⟨hnone, ?_⟩
    rw [hsA]
    exact zkLookup_zkStore_self ..
  next e hA =>
    split at h
    · rename_i he
      subst he
      split at h
      next sB hB =>
        split at h
        next sC hC =>
          obtain rfl := Except.ok.inj h
          obtain ⟨_, _, hsC⟩ := zkCreate_ok_elim _ _ _ _ hC
          refine ⟨zkCreate_znonode_elim _ _ _ hA, ?_⟩
          rw [hsC]
          exact zkLookup_zkStore_self ..
        next e2 hC => cases h
      next e1 hB => cases h
    · cases h

theorem dropLast_append_one (base : ZkPath) (a : String) :
    (base ++ [a]).dropLast = base := by
  simp

theorem getLastD_append_one (base : ZkPath) (a d : String) :
    (base ++ [a]).getLastD d = a := by
  simp [List.getLastD_eq_getLast?]

theorem append_pair_eq (base : ZkPath) (a b : String) :
    base ++ [a, b] = (base ++ [a]) ++ [b] := by simp

theorem dropLast_append_two (base : ZkPath) (a b : String) :
    (base ++ [a, b]).dropLast = base ++ [a] := by
  rw [append_pair_eq base a b, dropLast_append_one]

theorem actionLogPath_eq (base : ZkPath) (name : String) :
    actionToActionLogPath (base ++ ["action", name]) = base ++ ["actionlog", name] := by
  unfold actionToActionLogPath
  rw [append_pair_eq base "action" name,
    dropLast_append_one (base ++ ["action"]) name,
    dropLast_append_one base "action",
    getLastD_append_one (base ++ ["action"]) name ""]

theorem append_two_ne (base : ZkPath) (a b c d : String) (hne : a ≠ c) :
    base ++ [a, b] ≠ base ++ [c, d] := by
  intro h
  have h2 := congrArg (List.drop base.length) h
  rw [List.drop_left, List.drop_left] at h2
  injection h2 with ha _
  exact hne ha

theorem storeActionResponse_direct (s : ZkState) (node : ActionNode)
    (base : ZkPath) (name : String) (err : Option String)
    (hlogNone : zkLookup s (base ++ ["actionlog", name]) = none)
    (hdirSome : (zkLookup s (base ++ ["actionlog"])).isSome = true) :
    storeActionResponse s node (base ++ ["action", name]) err
      = .ok (zkStore s (base ++ ["actionlog", name])
          ⟨.actionData (terminalNode node err), 0⟩) := by
  have hpar : parentExists s (base ++ ["actionlog", name]) = true := by
    unfold parentExists
    rw [append_pair_eq, dropLast_append_one, hdirSome, Bool.or_true]
  have hcr : zkCreate s (base ++ ["actionlog", name])
      (.actionData (terminalNode node err))
      = .ok (zkStore s (base ++ ["actionlog", name])
          ⟨.actionData (terminalNode node err), 0⟩) := by
    unfold zkCreate
    rw [hlogNone, hpar]
    simp
  simp only [storeActionResponse, actionLogPath_eq, hcr]

theorem storeActionResponse_fallback (s : ZkState) (node : ActionNode)
    (base : ZkPath) (name : String) (err : Option String)
    (hlogNone : zkLookup s (base ++ ["actionlog", name]) = none)
    (hdirNone : zkLookup s (base ++ ["actionlog"]) = none)
    (hpar : parentExists s (base ++ ["actionlog"]) = true) :
    storeActionResponse s node (base ++ ["action", name]) err
      = .ok (zkStore (zkStore s (base ++ ["actionlog"]) ⟨.strData "", 0⟩)
          (base ++ ["actionlog", name])
          ⟨.actionData (terminalNode node err), 0⟩) := by
  have hparLog : parentExists s (base ++ ["actionlog", name]) = false := by
    unfold parentExists
    rw [append_pair_eq, dropLast_append_one, hdirNone]
    simp
  have hcr1 : zkCreate s (base ++ ["actionlog", name])
      (.actionData (terminalNode node err)) = .error .znonode := by
    unfold zkCreate
    rw [hlogNone, hparLog]
    simp
  have hcr2 : zkCreate s (base ++ ["actionlog"]) (.strData "")
      = .ok (zkStore s (base ++ ["actionlog"]) ⟨.strData "", 0⟩) := by
    unfold zkCreate
    rw [hdirNone, hpar]
    simp
  have hne1 : base ++ ["actionlog", name] ≠ base ++ ["actionlog"] := by
    intro h
    have := congrArg List.length h
    simp at this
  have hlog1 : zkLookup (zkStore s (base ++ ["actionlog"]) ⟨.strData "", 0⟩)
      (base ++ ["actionlog", name]) = none := by
    rw [zkLookup_zkStore_ne _ _ _ _ hne1, hlogNone]
  have hpar1 : parentExists (zkStore s (base ++ ["actionlog"]) ⟨.strData "", 0⟩)
      (base ++ ["actionlog", name]) = true := by
    unfold parentExists
    rw [append_pair_eq, dropLast_append_one, zkLookup_zkStore_self]
    simp
  have hcr3 : zkCreate (zkStore s (base ++ ["actionlog"]) ⟨.strData "", 0⟩)
      (base ++ ["actionlog", name]) (.actionData (terminalNode node err))
      = .ok (zkStore (zkStore s (base ++ ["actionlog"]) ⟨.strData "", 0⟩)
          (base ++ ["actionlog", name])
          ⟨.actionData (terminalNode node err), 0⟩) := by
    unfold zkCreate
    rw [hlog1, hpar1]
    simp
  have hdrop : List.dropLast (base ++ ["actionlog", name]) = base ++ ["actionlog"] := by
    rw [append_pair_eq base "actionlog" name, dropLast_append_one]
  simp only [storeActionResponse, actionLogPath_eq, hcr1, eq_self_iff_true, if_true,
    hdrop, hcr2, hcr3]

theorem handleAction_finish (s2 : ZkState) (p logPath : ZkPath)
    (nn term : ZkNode)
    (hlookupP : zkLookup s2 p = some nn)
    (hchild : zkHasChild s2 p = false)
    (hlookupLog : zkLookup s2 logPath = some term)
    (hne : logPath ≠ p) :
    zkDelete s2 p (-1) = .ok (zkRemove s2 p) ∧
    zkLookup (zkRemove s2 p) logPath = some term ∧
    zkLookup (zkRemove s2 p) p = none := by
  refine ⟨?_, ?_, zkLookup_zkRemove_self s2 p⟩
  · unfold zkDelete
    rw [hlookupP, hchild]
    simp
  · rw [zkLookup_zkRemove_ne _ _ _ hne, hlookupLog]

theorem handleAction_run (s0 : ZkState) (base : ZkPath) (name : String)
    (n : ActionNode) (v : Nat) (action guid : String) (forceRerun : Bool)
    (dispatch : ActionNode → Option String)
    (hq : zkLookup s0 (base ++ ["action", name]) = some ⟨.actionData n, v⟩)
    (hstate : n.State = .queued)
    (hname : n.Action = action) (hguid : n.ActionGuid = guid)
    (hlog : zkLookup s0 (base ++ ["actionlog", name]) = none)
    (hdir : (zkLookup s0 (base ++ ["actionlog"])).isSome = true ∨
      (zkLookup s0 (base ++ ["actionlog"]) = none ∧
        parentExists s0 (base ++ ["actionlog"]) = true))
    (hnc : zkHasChild s0 (base ++ ["action", name]) = false) :
    ∃ s3, handleAction s0 (base ++ ["action", name]) action guid forceRerun dispatch
        = (s3, .completed (dispatch { n with State := .running })) ∧
      zkLookup s3 (base ++ ["actionlog", name])
        = some ⟨.actionData (terminalNode { n with State := .running }
            (dispatch { n with State := .running })), 0⟩ ∧
      zkLookup s3 (base ++ ["action", name]) = none := by
  have fLogP : base ++ ["actionlog", name] ≠ base ++ ["action", name] :=
    append_two_ne base "actionlog" name "action" name (by decide)
  have fDirP : base ++ ["actionlog"] ≠ base ++ ["action", name] := by
    intro h
    have := congrArg List.length h
    simp at this
  have fBaseP : base ≠ base ++ ["action", name] := by
    intro h
    have := congrArg List.length h
    simp at this
  have fActP : base ++ ["action"] ≠ base ++ ["action", name] := by
    intro h
    have := congrArg List.length h
    simp at this
  have hrun : ¬ (n.State = ActionState.running ∧ forceRerun = false) := by
    rw [hstate]
    rintro ⟨h, _⟩
    cases h
  have hfail : ¬ n.State = ActionState.failed := by rw [hstate]; intro h; cases h
  have hdone : ¬ n.State = ActionState.done := by rw [hstate]; intro h; cases h
  have hset : zkSet s0 (base ++ ["action", name])
      (.actionData { n with State := .running }) (v : Int)
      = .ok (zkStore s0 (base ++ ["action", name])
          ⟨.actionData { n with State := .running }, v + 1⟩) := by
    simp [zkSet, hq]
  have hval : ¬ (¬ n.Action = action ∨ ¬ n.ActionGuid = guid) := by
    rintro (h | h)
    · exact h hname
    · exact h hguid
  have hq1 : zkLookup (zkStore s0 (base ++ ["action", name])
      ⟨.actionData { n with State := .running }, v + 1⟩) (base ++ ["action", name])
      = some ⟨.actionData { n with State := .running }, v + 1⟩ :=
    zkLookup_zkStore_self ..
  have hlog1 : zkLookup (zkStore s0 (base ++ ["action", name])
      ⟨.actionData { n with State := .running }, v + 1⟩) (base ++ ["actionlog", name])
      = none := by
    rw [zkLookup_zkStore_ne _ _ _ _ fLogP, hlog]
  have hdir1 : zkLookup (zkStore s0 (base ++ ["action", name])
      ⟨.actionData { n with State := .running }, v + 1⟩) (base ++ ["actionlog"])
      = zkLookup s0 (base ++ ["actionlog"]) :=
    zkLookup_zkStore_ne _ _ _ _ fDirP
  have hbase1 : zkLookup (zkStore s0 (base ++ ["action", name])
      ⟨.actionData { n with State := .running }, v + 1⟩) base = zkLookup s0 base :=
    zkLookup_zkStore_ne _ _ _ _ fBaseP
  have hchildStore : zkHasChild (zkStore s0 (base ++ ["action", name])
      ⟨.actionData { n with State := .running }, v + 1⟩)
      (base ++ ["action", name]) = false := by
    cases hch : zkHasChild (zkStore s0 (base ++ ["action", name])
        ⟨.actionData { n with State := .running }, v + 1⟩)
        (base ++ ["action", name]) with
    | false => rfl
    | true =>
      rcases zkHasChild_zkStore_imp _ _ _ _ hch with h1 | h1
      · rw [dropLast_append_two] at h1
        exact absurd h1 fActP
      · rw [hnc] at h1
        cases h1
  rcases hdir with hdirSome | ⟨hdirNone, hdirPar⟩
  · have hstore := storeActionResponse_direct
      (zkStore s0 (base ++ ["action", name])
        ⟨.actionData { n with State := .running }, v + 1⟩)
      { n with State := .running } base name
      (dispatch { n with State := .running }) hlog1 (by rw [hdir1]; exact hdirSome)
    have hq2 : zkLookup (zkStore (zkStore s0 (base ++ ["action", name])
        ⟨.actionData { n with State := .running }, v + 1⟩)
        (base ++ ["actionlog", name])
        ⟨.actionData (terminalNode { n with State := .running }
          (dispatch { n with State := .running })), 0⟩) (base ++ ["action", name])
        = some ⟨.actionData { n with State := .running }, v + 1⟩ := by
      rw [zkLookup_zkStore_ne _ _ _ _ (Ne.symm fLogP), hq1]
    have hlog2 : zkLookup (zkStore (zkStore s0 (base ++ ["action", name])
        ⟨.actionData { n with State := .running }, v + 1⟩)
        (base ++ ["actionlog", name])
        ⟨.actionData (terminalNode { n with State := .running }
          (dispatch { n with State := .running })), 0⟩) (base ++ ["actionlog", name])
        = some ⟨.actionData (terminalNode { n with State := .running }
            (dispatch { n with State := .running })), 0⟩ :=
      zkLookup_zkStore_self ..
    have hchild2 : zkHasChild (zkStore (zkStore s0 (base ++ ["action", name])
        ⟨.actionData { n with State := .running }, v + 1⟩)
        (base ++ ["actionlog", name])
        ⟨.actionData (terminalNode { n with State := .running }
          (dispatch { n with State := .running })), 0⟩)
        (base ++ ["action", name]) = false := by
      cases hch : zkHasChild (zkStore (zkStore s0 (base ++ ["action", name])
          ⟨.actionData { n with State := .running }, v + 1⟩)
          (base ++ ["actionlog", name])
          ⟨.actionData (terminalNode { n with State := .running }
            (dispatch { n with State := .running })), 0⟩)
          (base ++ ["action", name]) with
      | false => rfl
      | true =>
        rcases zkHasChild_zkStore_imp _ _ _ _ hch with h1 | h1
        · rw [dropLast_append_two] at h1
          exact absurd h1 fDirP
        · rw [hchildStore] at h1
          cases h1
    obtain ⟨hdel, hfinLog, hfinP⟩ := handleAction_finish _ _ _ _ _ hq2 hchild2 hlog2 fLogP
    refine ⟨_, ?_, hfinLog, hfinP⟩
    simp only [handleAction, hq, handleActionFromRead, if_neg hrun, if_neg hfail,
      if_neg hdone, hset, if_neg hval, hstore, hdel]
  · have hstore := storeActionResponse_fallback
      (zkStore s0 (base ++ ["action", name])
        ⟨.actionData { n with State := .running }, v + 1⟩)
      { n with State := .running } base name
      (dispatch { n with State := .running }) hlog1 (by rw [hdir1]; exact hdirNone)
      (by unfold parentExists at hdirPar ⊢
          rw [dropLast_append_one] at hdirPar ⊢
          rw [hbase1]
          exact hdirPar)
    have hq2 : zkLookup (zkStore (zkStore (zkStore s0 (base ++ ["action", name])
        ⟨.actionData { n with State := .running }, v + 1⟩)
        (base ++ ["actionlog"]) ⟨.strData "", 0⟩)
        (base ++ ["actionlog", name])
        ⟨.actionData (terminalNode { n with State := .running }
          (dispatch { n with State := .running })), 0⟩) (base ++ ["action", name])
        = some ⟨.actionData { n with State := .running }, v + 1⟩ := by
      rw [zkLookup_zkStore_ne _ _ _ _ (Ne.symm fLogP),
        zkLookup_zkStore_ne _ _ _ _ (Ne.symm fDirP), hq1]
    have hlog2 : zkLookup (zkStore (zkStore (zkStore s0 (base ++ ["action", name])
        ⟨.actionData { n with State := .running }, v + 1⟩)
        (base ++ ["actionlog"]) ⟨.strData "", 0⟩)
        (base ++ ["actionlog", name])
        ⟨.actionData (terminalNode { n with State := .running }
          (dispatch { n with State := .running })), 0⟩) (base ++ ["actionlog", name])
        = some ⟨.actionData (terminalNode { n with State := .running }
            (dispatch { n with State := .running })), 0⟩ :=
      zkLookup_zkStore_self ..
    have hchild2 : zkHasChild (zkStore (zkStore (zkStore s0 (base ++ ["action", name])
        ⟨.actionData { n with State := .running }, v + 1⟩)
        (base ++ ["actionlog"]) ⟨.strData "", 0⟩)
        (base ++ ["actionlog", name])
        ⟨.actionData (terminalNode { n with State := .running }
          (dispatch { n with State := .running })), 0⟩)
        (base ++ ["action", name]) = false := by
      cases hch : zkHasChild (zkStore (zkStore (zkStore s0 (base ++ ["action", name])
          ⟨.actionData { n with State := .running }, v + 1⟩)
          (base ++ ["actionlog"]) ⟨.strData "", 0⟩)
          (base ++ ["actionlog", name])
          ⟨.actionData (terminalNode { n with State := .running }
            (dispatch { n with State := .running })), 0⟩)
          (base ++ ["action", name]) with
      | false => rfl
      | true =>
        rcases zkHasChild_zkStore_imp _ _ _ _ hch with h1 | h1
        · rw [dropLast_append_two] at h1
          exact absurd h1 fDirP
        · rcases zkHasChild_zkStore_imp _ _ _ _ h1 with h2 | h2
          · rw [dropLast_append_one] at h2
            exact absurd h2 fBaseP
          · rw [hchildStore] at h2
            cases h2
    obtain ⟨hdel, hfinLog, hfinP⟩ := handleAction_finish _ _ _ _ _ hq2 hchild2 hlog2 fLogP
    refine ⟨_, ?_, hfinLog, hfinP⟩
    simp only [handleAction, hq, handleActionFromRead, if_neg hrun, if_neg hfail,
      if_neg hdone, hset, if_neg hval, hstore, hdel]

theorem zkSet_ok_elim (s s1 : ZkState) (p : ZkPath) (d : NodeData) (exp : Int)
    (h : zkSet s p d exp = .ok s1) :
    ∃ n, zkLookup s p = some n ∧ s1 = zkStore s p ⟨d, n.version + 1⟩ := by
  simp only [zkSet] at h
  split at h
  · cases h
  · rename_i n hl
    split at h
    · exact ⟨n, hl, (Except.ok.inj h).symm⟩
    · cases h

theorem zkDelete_ok_elim (s s1 : ZkState) (p : ZkPath) (exp : Int)
    (h : zkDelete s p exp = .ok s1) : s1 = zkRemove s p := by
  simp only [zkDelete] at h
  split at h
  · cases h
  · split at h
    · cases h
    · split at h
      · exact (Except.ok.inj h).symm
      · cases h

theorem handleAction_deletes_only_after_record (s0 : ZkState) (p : ZkPath)
    (action guid : String) (forceRerun : Bool) (dispatch : ActionNode → Option String)
    (s1 : ZkState) (r : HAResult)
    (hrun : handleAction s0 p action guid forceRerun dispatch = (s1, r))
    (hold : zkLookup s0 p ≠ none)
    (hgone : zkLookup s1 p = none) :
    zkLookup s1 (actionToActionLogPath p) ≠ none := by
  simp only [handleAction] at hrun
  split at hrun
  · rename_i hl
    exact absurd hl hold
  · rename_i zn hl
    split at hrun
    · obtain ⟨rfl, _⟩ := Prod.mk.inj hrun
      exact absurd hgone hold
    · rename_i an hd
      simp only [handleActionFromRead] at hrun
      split at hrun
      · obtain ⟨rfl, _⟩ := Prod.mk.inj hrun
        exact absurd hgone hold
      · split at hrun
        · obtain ⟨rfl, _⟩ := Prod.mk.inj hrun
          exact absurd hgone hold
        · split at hrun
          · obtain ⟨rfl, _⟩ := Prod.mk.inj hrun
            exact absurd hgone hold
          · split at hrun
            next e hset =>
              split at hrun <;>
                (obtain ⟨rfl, _⟩ := Prod.mk.inj hrun; exact absurd hgone hold)
            next sA hset =>
              obtain ⟨nA, hlA, hsA⟩ := zkSet_ok_elim _ _ _ _ _ hset
              have hpA : zkLookup sA p ≠ none := by
                rw [hsA, zkLookup_zkStore_self]
                exact fun h => Option.noConfusion h
              split at hrun
              · obtain ⟨rfl, _⟩ := Prod.mk.inj hrun
                exact absurd hgone hpA
              · split at hrun
                next e hstore =>
                  obtain ⟨rfl, _⟩ := Prod.mk.inj hrun
                  exact absurd hgone hpA
                next sB hstore =>
                  obtain ⟨hpreNone, hpostSome⟩ :=
                    storeActionResponse_ok_elim _ _ _ _ _ hstore
                  have hlogne : actionToActionLogPath p ≠ p := by
                    intro hco
                    rw [hco] at hpreNone
                    exact hpA hpreNone
                  split at hrun
                  next e hdel =>
                    obtain ⟨rfl, _⟩ := Prod.mk.inj hrun
                    rw [hpostSome]
                    exact fun h => Option.noConfusion h
                  next sC hdel =>
                    obtain ⟨rfl, _⟩ := Prod.mk.inj hrun
                    rw [zkDelete_ok_elim _ _ _ _ hdel,
                      zkLookup_zkRemove_ne _ _ _ hlogne, hpostSome]
                    exact fun h => Option.noConfusion h

/-- C2. On the path where HandleAction dispatches an action read in
queued state, exactly one terminal record is written: the action log
sibling node is created holding a copy of the node in state Done (empty
error) when the handler returned nil and Failed carrying the handler
error string otherwise, the missing actionlog parent directory is
created first when the record create fails with no-node, and the queue
node is deleted only after the record exists (in any run of
HandleAction, if the queue node disappeared then the action log record
is present). -/
theorem handleAction_writes_one_terminal_record_then_deletes
    (s0 : ZkState) (base : ZkPath) (name : String)
    (n : ActionNode) (v : Nat) (action guid : String) (forceRerun : Bool)
    (dispatch : ActionNode → Option String)
    (hq : zkLookup s0 (base ++ ["action", name]) = some ⟨.actionData n, v⟩)
    (hstate : n.State = .queued)
    (hname : n.Action = action) (hguid : n.ActionGuid = guid)
    (hlog : zkLookup s0 (base ++ ["actionlog", name]) = none)
    (hdir : (zkLookup s0 (base ++ ["actionlog"])).isSome = true ∨
      (zkLookup s0 (base ++ ["actionlog"]) = none ∧
        parentExists s0 (base ++ ["actionlog"]) = true))
    (hnc : zkHasChild s0 (base ++ ["action", name]) = false) :
    (∃ s3, handleAction s0 (base ++ ["action", name]) action guid forceRerun dispatch
        = (s3, .completed (dispatch { n with State := .running })) ∧
      zkLookup s3 (base ++ ["actionlog", name])
        = some ⟨.actionData (terminalNode { n with State := .running }
            (dispatch { n with State := .running })), 0⟩ ∧
      zkLookup s3 (base ++ ["action", name]) = none) ∧
    ((dispatch { n with State := .running } = none →
      (terminalNode { n with State := .running }
        (dispatch { n with State := .running })).State = .done ∧
      (terminalNode { n with State := .running }
        (dispatch { n with State := .running })).Error = "") ∧
     (∀ e, dispatch { n with State := .running } = some e →
      (terminalNode { n with State := .running }
        (dispatch { n with State := .running })).State = .failed ∧
      (terminalNode { n with State := .running }
        (dispatch { n with State := .running })).Error = e)) ∧
    (∀ (t0 : ZkState) (q : ZkPath) (a g : String) (f : Bool)
       (d : ActionNode → Option String) (t1 : ZkState) (r : HAResult),
      handleAction t0 q a g f d = (t1, r) → zkLookup t0 q ≠ none →
      zkLookup t1 q = none → zkLookup t1 (actionToActionLogPath q) ≠ none) := by
  refine ⟨handleAction_run s0 base name n v action guid forceRerun dispatch
      hq hstate hname hguid hlog hdir hnc, ⟨?_, ?_⟩, ?_⟩
  · intro hnone
    rw [hnone]
    exact ⟨rfl, rfl⟩
  · intro e he
    rw [he]
    exact ⟨rfl, rfl⟩
  · exact fun t0 q a g f d t1 r h1 h2 h3 =>
      handleAction_deletes_only_after_record t0 q a g f d t1 r h1 h2 h3

/-- Witness for C2: a concrete queued Ping action under a one-component
tablet path, with the actionlog directory present and a handler that
succeeds. -/
theorem handleAction_writes_one_terminal_record_then_deletes_witness :
    ∃ s3, handleAction
        [(["t", "action", "1"], ⟨.actionData ⟨"Ping", "g1", "", .queued⟩, 5⟩),
         (["t", "actionlog"], ⟨.strData "", 0⟩)]
        (["t"] ++ ["action", "1"]) "Ping" "g1" false (fun _ => none)
        = (s3, .completed none) ∧
      zkLookup s3 (["t"] ++ ["actionlog", "1"])
        = some ⟨.actionData (terminalNode ⟨"Ping", "g1", "", .running⟩ none), 0⟩ ∧
      zkLookup s3 (["t"] ++ ["action", "1"]) = none := by
  have h := handleAction_writes_one_terminal_record_then_deletes
    [(["t", "action", "1"], ⟨.actionData ⟨"Ping", "g1", "", .queued⟩, 5⟩),
     (["t", "actionlog"], ⟨.strData "", 0⟩)]
    ["t"] "1" ⟨"Ping", "g1", "", .queued⟩ 5 "Ping" "g1" false (fun _ => none)
    (by rfl) (by rfl) (by rfl) (by rfl) (by rfl) (Or.inl (by rfl)) (by rfl)
  exact h.1

/-- C1. At most one actor transitions an action from queued to Running:
the claim is a compare-and-swap Set at the version obtained at read time,
which succeeds and bumps the version; any Set of the same node that still
uses the read version then fails with ZBADVERSION; an actor that read the
node in queued state and loses the race falls through to the
wait-for-completion path without touching the store; and after the winner
finishes, the action log read by the waiter carries the same terminal
outcome that the winner returned. -/
theorem handleAction_claim_is_cas
    (s0 : ZkState) (base : ZkPath) (name : String) (n : ActionNode) (v : Nat)
    (action guid : String) (dispatch : ActionNode → Option String)
    (hq : zkLookup s0 (base ++ ["action", name]) = some ⟨.actionData n, v⟩)
    (hstate : n.State = .queued)
    (hname : n.Action = action) (hguid : n.ActionGuid = guid)
    (hlog : zkLookup s0 (base ++ ["actionlog", name]) = none)
    (hdir : (zkLookup s0 (base ++ ["actionlog"])).isSome = true ∨
      (zkLookup s0 (base ++ ["actionlog"]) = none ∧
        parentExists s0 (base ++ ["actionlog"]) = true))
    (hnc : zkHasChild s0 (base ++ ["action", name]) = false) :
    (zkSet s0 (base ++ ["action", name])
        (.actionData { n with State := .running }) (v : Int)
      = .ok (zkStore s0 (base ++ ["action", name])
          ⟨.actionData { n with State := .running }, v + 1⟩)) ∧
    (∀ d2 : NodeData, zkSet (zkStore s0 (base ++ ["action", name])
        ⟨.actionData { n with State := .running }, v + 1⟩)
        (base ++ ["action", name]) d2 (v : Int) = .error .zbadversion) ∧
    (∀ (a2 g2 : String) (f2 : Bool) (d2 : ActionNode → Option String),
      handleActionFromRead (zkStore s0 (base ++ ["action", name])
          ⟨.actionData { n with State := .running }, v + 1⟩)
        (base ++ ["action", name]) n v a2 g2 f2 d2
      = (zkStore s0 (base ++ ["action", name])
          ⟨.actionData { n with State := .running }, v + 1⟩, .waits)) ∧
    (∃ s3, handleAction s0 (base ++ ["action", name]) action guid false dispatch
        = (s3, .completed (dispatch { n with State := .running })) ∧
      (dispatch { n with State := .running } = none →
        waitForCompletion s3 (base ++ ["action", name])
          = some (.done (terminalNode { n with State := .running } none))) ∧
      (∀ e, dispatch { n with State := .running } = some e →
        waitForCompletion s3 (base ++ ["action", name]) = some (.failed e))) := by
  have hnot : ¬ ((v : Int) = -1 ∨ (v : Int) = ((v + 1 : Nat) : Int)) := by
    rintro (h | h) <;> omega
  refine ⟨?_, ?_, ?_, ?_⟩
  · simp [zkSet, hq]
  · intro d2
    simp only [zkSet, zkLookup_zkStore_self]
    rw [if_neg hnot]
  · intro a2 g2 f2 d2
    have hr : ¬ (n.State = ActionState.running ∧ f2 = false) := by
      rw [hstate]
      rintro ⟨h, _⟩
      cases h
    have hfail : ¬ n.State = ActionState.failed := by rw [hstate]; intro h; cases h
    have hdone : ¬ n.State = ActionState.done := by rw [hstate]; intro h; cases h
    have hbad : zkSet (zkStore s0 (base ++ ["action", name])
        ⟨.actionData { n with State := .running }, v + 1⟩)
        (base ++ ["action", name]) (.actionData { n with State := .running })
        (v : Int) = .error .zbadversion := by
      simp only [zkSet, zkLookup_zkStore_self]
      rw [if_neg hnot]
    simp only [handleActionFromRead, if_neg hr, if_neg hfail, if_neg hdone, hbad]
    simp
  · obtain ⟨s3, hrun, hlook, _⟩ := handleAction_run s0 base name n v action guid
      false dispatch hq hstate hname hguid hlog hdir hnc
    refine ⟨s3, hrun, ?_, ?_⟩
    · intro hdisp
      rw [hdisp] at hlook
      simp only [waitForCompletion, actionLogPath_eq, hlook, terminalNode]
      rfl
    · intro e hdisp
      rw [hdisp] at hlook
      simp only [waitForCompletion, actionLogPath_eq, hlook, terminalNode]
      rfl

/-- Witness for C1 at a concrete store: a queued Ping action at version
5; the claim bumps the version to 6; a Set at the stale version 5 fails
with ZBADVERSION; a second actor that read the queued node at version 5
ends up on the wait path under any action name, guid, forceRerun flag and
handler; and the completed run leaves a Done record that the waiter
reads. -/
theorem handleAction_claim_is_cas_witness :
    (zkSet [(["t", "action", "1"], ⟨.actionData ⟨"Ping", "g1", "", .queued⟩, 5⟩),
            (["t", "actionlog"], ⟨.strData "", 0⟩)]
        (["t"] ++ ["action", "1"]) (.actionData ⟨"Ping", "g1", "", .running⟩)
        ((5 : Nat) : Int)
      = .ok (zkStore [(["t", "action", "1"],
            ⟨.actionData ⟨"Ping", "g1", "", .queued⟩, 5⟩),
            (["t", "actionlog"], ⟨.strData "", 0⟩)]
          (["t"] ++ ["action", "1"]) ⟨.actionData ⟨"Ping", "g1", "", .running⟩, 6⟩)) ∧
    (zkSet (zkStore [(["t", "action", "1"],
          ⟨.actionData ⟨"Ping", "g1", "", .queued⟩, 5⟩),
          (["t", "actionlog"], ⟨.strData "", 0⟩)]
        (["t"] ++ ["action", "1"]) ⟨.actionData ⟨"Ping", "g1", "", .running⟩, 6⟩)
        (["t"] ++ ["action", "1"]) (.strData "x") ((5 : Nat) : Int)
      = .error .zbadversion) ∧
    (handleActionFromRead (zkStore [(["t", "action", "1"],
          ⟨.actionData ⟨"Ping", "g1", "", .queued⟩, 5⟩),
          (["t", "actionlog"], ⟨.strData "", 0⟩)]
        (["t"] ++ ["action", "1"]) ⟨.actionData ⟨"Ping", "g1", "", .running⟩, 6⟩)
        (["t"] ++ ["action", "1"]) ⟨"Ping", "g1", "", .queued⟩ 5 "Other" "g9" true
        (fun _ => some "boom")
      = (zkStore [(["t", "action", "1"],
          ⟨.actionData ⟨"Ping", "g1", "", .queued⟩, 5⟩),
          (["t", "actionlog"], ⟨.strData "", 0⟩)]
        (["t"] ++ ["action", "1"]) ⟨.actionData ⟨"Ping", "g1", "", .running⟩, 6⟩,
        .waits)) ∧
    (∃ s3, handleAction [(["t", "action", "1"],
          ⟨.actionData ⟨"Ping", "g1", "", .queued⟩, 5⟩),
          (["t", "actionlog"], ⟨.strData "", 0⟩)]
        (["t"] ++ ["action", "1"]) "Ping" "g1" false (fun _ => none)
        = (s3, .completed none) ∧
      waitForCompletion s3 (["t"] ++ ["action", "1"])
        = some (.done (terminalNode ⟨"Ping", "g1", "", .running⟩ none))) := by
  have h := handleAction_claim_is_cas
    [(["t", "action", "1"], ⟨.actionData ⟨"Ping", "g1", "", .queued⟩, 5⟩),
     (["t", "actionlog"], ⟨.strData "", 0⟩)]
    ["t"] "1" ⟨"Ping", "g1", "", .queued⟩ 5 "Ping" "g1" (fun _ => none)
    (by rfl) (by rfl) (by rfl) (by rfl) (by rfl) (Or.inl (by rfl)) (by rfl)
  obtain ⟨h1, h2, h3, s3, h4, h5, _⟩ := h
  exact ⟨h1, h2 (.strData "x"), h3 "Other" "g9" true (fun _ => some "boom"),
    s3, h4, h5 rfl⟩

/-- C9. When the node claimed by the compare-and-swap carries an action
name or guid different from the ones HandleAction was invoked with, the
call returns the invalid-action-initiation error without calling any
handler (the result does not depend on the dispatch function), without
writing an action log record, and without deleting the queue node, which
is left in the live queue in state Running at the bumped version. -/
theorem handleAction_invalid_initiation
    (s0 : ZkState) (base : ZkPath) (name : String) (n : ActionNode) (v : Nat)
    (action guid : String) (forceRerun : Bool)
    (hq : zkLookup s0 (base ++ ["action", name]) = some ⟨.actionData n, v⟩)
    (hstate : n.State = .queued)
    (hmis : ¬ n.Action = action ∨ ¬ n.ActionGuid = guid) :
    ∃ s1, (∀ dispatch : ActionNode → Option String,
        handleAction s0 (base ++ ["action", name]) action guid forceRerun dispatch
          = (s1, .invalidInitiation action guid)) ∧
      zkLookup s1 (base ++ ["action", name])
        = some ⟨.actionData { n with State := .running }, v + 1⟩ ∧
      zkLookup s1 (base ++ ["actionlog", name])
        = zkLookup s0 (base ++ ["actionlog", name]) ∧
      ({ n with State := ActionState.running }).State = .running := by
  have fLogP : base ++ ["actionlog", name] ≠ base ++ ["action", name] :=
    append_two_ne base "actionlog" name "action" name (by decide)
  have hrun : ¬ (n.State = ActionState.running ∧ forceRerun = false) := by
    rw [hstate]
    rintro ⟨h, _⟩
    cases h
  have hfail : ¬ n.State = ActionState.failed := by rw [hstate]; intro h; cases h
  have hdone : ¬ n.State = ActionState.done := by rw [hstate]; intro h; cases h
  have hset : zkSet s0 (base ++ ["action", name])
      (.actionData { n with State := .running }) (v : Int)
      = .ok (zkStore s0 (base ++ ["action", name])
          ⟨.actionData { n with State := .running }, v + 1⟩) := by
    simp [zkSet, hq]
  refine ⟨zkStore s0 (base ++ ["action", name])
      ⟨.actionData { n with State := .running }, v + 1⟩, ?_, ?_, ?_, rfl⟩
  · intro dispatch
    simp only [handleAction, hq, handleActionFromRead, if_neg hrun, if_neg hfail,
      if_neg hdone, hset, if_pos hmis]
  · exact zkLookup_zkStore_self ..
  · exact zkLookup_zkStore_ne _ _ _ _ fLogP

/-- Witness for C9: a queued node named Ping invoked as Sleep is claimed
(version 5 to 6) and then rejected without any store change beyond the
claim, for two different handlers. -/
theorem handleAction_invalid_initiation_witness :
    ∃ s1, (handleAction [(["t", "action", "1"],
          ⟨.actionData ⟨"Ping", "g1", "", .queued⟩, 5⟩)]
        (["t"] ++ ["action", "1"]) "Sleep" "g1" false (fun _ => some "boom")
          = (s1, .invalidInitiation "Sleep" "g1")) ∧
      zkLookup s1 (["t"] ++ ["action", "1"])
        = some ⟨.actionData ⟨"Ping", "g1", "", .running⟩, 6⟩ ∧
      zkLookup s1 (["t"] ++ ["actionlog", "1"])
        = zkLookup [(["t", "action", "1"],
            ⟨.actionData ⟨"Ping", "g1", "", .queued⟩, 5⟩)]
            (["t"] ++ ["actionlog", "1"]) := by
  obtain ⟨s1, hall, hp, hlog, _⟩ := handleAction_invalid_initiation
    [(["t", "action", "1"], ⟨.actionData ⟨"Ping", "g1", "", .queued⟩, 5⟩)]
    ["t"] "1" ⟨"Ping", "g1", "", .queued⟩ 5 "Sleep" "g1" false
    (by rfl) (by rfl) (Or.inl (by decide))
  exact ⟨s1, hall _, hp, hlog⟩

/-- Witness for the amended C8 theorem: ceiling 1, a single subscriber
with rate list containing 2 qps, so the fair share is 1 and the assigned
sleep is 30 milliseconds. -/
theorem throttle_sleep_is_truncated_milliseconds_witness :
    ((2 : ℚ) > 1 / ((1 : Nat) : ℚ) →
      throttleTick 1 [("DmlCount.A", [2])] "A" 0
        = (truncQ (claimedThrottleSleepNs 2 (1 / ((1 : Nat) : ℚ)) / 10 ^ 9) : ℚ)
            * 10 ^ 6) ∧
    (¬ (2 : ℚ) > 1 / ((1 : Nat) : ℚ) →
      throttleTick 1 [("DmlCount.A", [2])] "A" 0 = 0) := by
  have h := throttle_sleep_is_truncated_milliseconds 1 [("DmlCount.A", [2])] "A" 0
    (by norm_num)
    (by simp only [List.map_cons, List.map_nil, List.sum_cons, List.sum_nil]
        norm_num [avgRate])
    2
    (by simp [List.lookup, avgRate])
  simpa using h

/-! ## Lemmas about line prefixes -/

theorem strStartsWith_first_char {s p1 p2 : String}
    (h1 : strStartsWith s p1 = true) (h2 : strStartsWith s p2 = true)
    {c1 c2 : Char} {t1 t2 : List Char}
    (hp1 : p1.data = c1 :: t1) (hp2 : p2.data = c2 :: t2) : c1 = c2 := by
  unfold strStartsWith at h1 h2
  rw [hp1] at h1
  rw [hp2] at h2
  obtain ⟨u1, hu1⟩ := List.isPrefixOf_iff_prefix.mp h1
  obtain ⟨u2, hu2⟩ := List.isPrefixOf_iff_prefix.mp h2
  rw [← hu2] at hu1
  simp only [List.cons_append] at hu1
  exact (List.cons.inj hu1).1

theorem commit_not_begin {s : String} (h : strStartsWith s "COMMIT" = true) :
    strStartsWith s "BEGIN" = false := by
  cases hb : strStartsWith s "BEGIN" with
  | false => rfl
  | true =>
    have := strStartsWith_first_char h hb rfl rfl
    exact absurd this (by decide)

theorem commit_not_timestamp {s : String} (h : strStartsWith s "COMMIT" = true) :
    strStartsWith s "SET TIMESTAMP=" = false := by
  cases hb : strStartsWith s "SET TIMESTAMP=" with
  | false => rfl
  | true =>
    have := strStartsWith_first_char h hb rfl rfl
    exact absurd this (by decide)

theorem commit_not_rollback {s : String} (h : strStartsWith s "COMMIT" = true) :
    strStartsWith s "ROLLBACK" = false := by
  cases hb : strStartsWith s "ROLLBACK" with
  | false => rfl
  | true =>
    have := strStartsWith_first_char h hb rfl rfl
    exact absurd this (by decide)

theorem rollback_not_timestamp {s : String} (h : strStartsWith s "ROLLBACK" = true) :
    strStartsWith s "SET TIMESTAMP=" = false := by
  cases hb : strStartsWith s "SET TIMESTAMP=" with
  | false => rfl
  | true =>
    have := strStartsWith_first_char h hb rfl rfl
    exact absurd this (by decide)

theorem rollback_not_begin {s : String} (h : strStartsWith s "ROLLBACK" = true) :
    strStartsWith s "BEGIN" = false := by
  cases hb : strStartsWith s "BEGIN" with
  | false => rfl
  | true =>
    have := strStartsWith_first_char h hb rfl rfl
    exact absurd this (by decide)

theorem begin_not_timestamp {s : String} (h : strStartsWith s "BEGIN" = true) :
    strStartsWith s "SET TIMESTAMP=" = false := by
  cases hb : strStartsWith s "SET TIMESTAMP=" with
  | false => rfl
  | true =>
    have := strStartsWith_first_char h hb rfl rfl
    exact absurd this (by decide)

theorem timestamp_not_begin {s : String} (h : strStartsWith s "SET TIMESTAMP=" = true) :
    strStartsWith s "BEGIN" = false := by
  cases hb : strStartsWith s "BEGIN" with
  | false => rfl
  | true =>
    have := strStartsWith_first_char h hb rfl rfl
    exact absurd this (by decide)

theorem timestamp_not_commit {s : String} (h : strStartsWith s "SET TIMESTAMP=" = true) :
    strStartsWith s "COMMIT" = false := by
  cases hb : strStartsWith s "COMMIT" with
  | false => rfl
  | true =>
    have := strStartsWith_first_char h hb rfl rfl
    exact absurd this (by decide)

theorem dmlMatchVal_error {kr : KeyRange} {e : EventBuffer} {m : String}
    (hp : parseKeyspaceId e.LogLine = .error m) : dmlMatchVal kr e = false := by
  unfold dmlMatchVal
  rw [hp]

theorem dmlMatchVal_none {kr : KeyRange} {e : EventBuffer}
    (hp : parseKeyspaceId e.LogLine = .ok none) : dmlMatchVal kr e = false := by
  unfold dmlMatchVal
  rw [hp]

theorem dmlMatchVal_some {kr : KeyRange} {e : EventBuffer} {s : String} {kid : Nat}
    (hp : parseKeyspaceId e.LogLine = .ok (some (s, kid))) :
    dmlMatchVal kr e = kr.kontains kid := by
  unfold dmlMatchVal
  rw [hp]

theorem buildTxnGo_cons_begin (kr : KeyRange) (e : EventBuffer)
    (l : List EventBuffer) (buf : List String) (resp : List BinlogResponse)
    (count : Nat) (hb : strStartsWith e.LogLine "BEGIN" = true)
    (hres : buildTxnGo kr l buf = .ok (resp, count)) :
    buildTxnGo kr (e :: l) buf = .ok (beginResponse e :: resp, count) := by
  simp only [buildTxnGo, hb, eq_self_iff_true, if_true]
  rw [hres]

theorem buildTxnGo_cons_commit_ok (kr : KeyRange) (e : EventBuffer)
    (l : List EventBuffer) (buf : List String) (resp : List BinlogResponse)
    (count : Nat) (hb : strStartsWith e.LogLine "BEGIN" = false)
    (hcm : strStartsWith e.LogLine "COMMIT" = true)
    (hres : buildTxnGo kr l buf = .ok (resp, count)) :
    buildTxnGo kr (e :: l) buf = .ok (commitResponse e :: resp, count) := by
  simp only [buildTxnGo, hb, hcm, Bool.false_eq_true, if_false,
    eq_self_iff_true, if_true]
  rw [hres]

theorem buildTxnGo_cons_dml_none (kr : KeyRange) (e : EventBuffer)
    (l : List EventBuffer) (buf : List String)
    (hb : strStartsWith e.LogLine "BEGIN" = false)
    (hc2 : strStartsWith e.LogLine "COMMIT" = false)
    (hdml : GetSqlType e.firstKw = "DML")
    (hp : parseKeyspaceId e.LogLine = .ok none) :
    buildTxnGo kr (e :: l) buf = buildTxnGo kr l buf := by
  simp only [buildTxnGo, hb, hc2, Bool.false_eq_true, if_false, if_pos hdml]
  split
  · next m hq => rw [hp] at hq; cases hq
  · rfl
  · next s2 k2 hq => rw [hp] at hq; cases hq

theorem buildTxnGo_cons_dml_out (kr : KeyRange) (e : EventBuffer)
    (l : List EventBuffer) (buf : List String) (s : String) (kid : Nat)
    (hb : strStartsWith e.LogLine "BEGIN" = false)
    (hc2 : strStartsWith e.LogLine "COMMIT" = false)
    (hdml : GetSqlType e.firstKw = "DML")
    (hp : parseKeyspaceId e.LogLine = .ok (some (s, kid)))
    (hk : kr.kontains kid = false) :
    buildTxnGo kr (e :: l) buf = buildTxnGo kr l [] := by
  simp only [buildTxnGo, hb, hc2, Bool.false_eq_true, if_false, if_pos hdml]
  split
  · next m hq => rw [hp] at hq; cases hq
  · next hq => rw [hp] at hq; cases hq
  · next s2 k2 hq =>
    rw [hp] at hq
    obtain ⟨h1, h2⟩ : s = s2 ∧ kid = k2 := by simpa using hq
    subst h1
    subst h2
    rw [if_pos hk]

theorem buildTxnGo_cons_dml_in (kr : KeyRange) (e : EventBuffer)
    (l : List EventBuffer) (buf : List String) (s : String) (kid : Nat)
    (resp : List BinlogResponse) (count : Nat)
    (hb : strStartsWith e.LogLine "BEGIN" = false)
    (hc2 : strStartsWith e.LogLine "COMMIT" = false)
    (hdml : GetSqlType e.firstKw = "DML")
    (hp : parseKeyspaceId e.LogLine = .ok (some (s, kid)))
    (hk : kr.kontains kid = true)
    (hres : buildTxnGo kr l [] = .ok (resp, count)) :
    buildTxnGo kr (e :: l) buf
      = .ok (dmlResponse e s (buf ++ [e.LogLine]) :: resp, count + 1) := by
  simp only [buildTxnGo, hb, hc2, Bool.false_eq_true, if_false, if_pos hdml]
  split
  · next m hq => rw [hp] at hq; cases hq
  · next hq => rw [hp] at hq; cases hq
  · next s2 k2 hq =>
    rw [hp] at hq
    obtain ⟨h1, h2⟩ : s = s2 ∧ kid = k2 := by simpa using hq
    subst h1
    subst h2
    rw [hk]
    simp only [Bool.true_eq_false, if_false]
    rw [hres]

theorem buildTxnGo_cons_other (kr : KeyRange) (e : EventBuffer)
    (l : List EventBuffer) (buf : List String)
    (hb : strStartsWith e.LogLine "BEGIN" = false)
    (hc2 : strStartsWith e.LogLine "COMMIT" = false)
    (hdml : GetSqlType e.firstKw ≠ "DML") :
    buildTxnGo kr (e :: l) buf = buildTxnGo kr l (buf ++ [e.LogLine]) := by
  simp only [buildTxnGo, hb, hc2, Bool.false_eq_true, if_false, if_neg hdml]

theorem inRangeDmls_cons_skip (kr : KeyRange) (e : EventBuffer)
    (rest : List EventBuffer)
    (h : (GetSqlType e.firstKw == "DML" && dmlMatchVal kr e) = false) :
    inRangeDmls kr (e :: rest) = inRangeDmls kr rest := by
  unfold inRangeDmls
  rw [List.filter_cons]
  simp [h]

theorem inRangeDmls_cons_keep (kr : KeyRange) (e : EventBuffer)
    (rest : List EventBuffer)
    (h : (GetSqlType e.firstKw == "DML" && dmlMatchVal kr e) = true) :
    inRangeDmls kr (e :: rest) = e :: inRangeDmls kr rest := by
  unfold inRangeDmls
  rw [List.filter_cons]
  simp [h]

theorem buildTxnGo_ok_elim (kr : KeyRange) (mid : List EventBuffer) (c : EventBuffer)
    (hm : ∀ e ∈ mid, strStartsWith e.LogLine "BEGIN" = false ∧
      strStartsWith e.LogLine "COMMIT" = false)
    (hc : strStartsWith c.LogLine "COMMIT" = true) :
    ∀ (dmlBuffer : List String) (resp : List BinlogResponse) (count : Nat),
      buildTxnGo kr (mid ++ [c]) dmlBuffer = .ok (resp, count) →
      resp.map respSummary
        = (inRangeDmls kr mid).map dmlSummary ++ [commitSummary c] ∧
      count = (inRangeDmls kr mid).length := by
  have hcb := commit_not_begin hc
  induction mid with
  | nil =>
    intro buf resp count h
    simp only [List.nil_append, buildTxnGo, hc, hcb, Bool.false_eq_true,
      eq_self_iff_true, if_true, if_false] at h
    obtain ⟨h1, h2⟩ := Prod.mk.inj (Except.ok.inj h).symm
    subst h1
    subst h2
    exact ⟨rfl, rfl⟩
  | cons e rest ih =>
    intro buf resp count h
    have hme := hm e (List.mem_cons_self e rest)
    have hmr : ∀ u ∈ rest, strStartsWith u.LogLine "BEGIN" = false ∧
        strStartsWith u.LogLine "COMMIT" = false :=
      fun u hu => hm u (List.mem_cons_of_mem e hu)
    simp only [List.cons_append, buildTxnGo, hme.1, hme.2, Bool.false_eq_true,
      if_false] at h
    by_cases hdml : GetSqlType e.firstKw = "DML"
    · rw [if_pos hdml] at h
      split at h
      · exact absurd h (by simp)
      · next hp =>
        rw [inRangeDmls_cons_skip kr e rest
          (by rw [dmlMatchVal_none hp, Bool.and_false])]
        exact ih hmr buf resp count h
      · next kidStr kid hp =>
        cases hk : kr.kontains kid with
        | false =>
          rw [hk] at h
          simp only [eq_self_iff_true, if_true] at h
          rw [inRangeDmls_cons_skip kr e rest
            (by rw [dmlMatchVal_some hp, hk, Bool.and_false])]
          exact ih hmr [] resp count h
        | true =>
          rw [hk] at h
          simp only [Bool.true_eq_false, if_false] at h
          split at h
          · exact absurd h (by simp)
          · next r hres =>
            simp only [Except.ok.injEq, Prod.mk.injEq] at h
            obtain ⟨h1, h2⟩ := h
            subst h1
            subst h2
            obtain ⟨ih1, ih2⟩ := ih hmr [] r.1 r.2 hres
            rw [inRangeDmls_cons_keep kr e rest
              (by rw [dmlMatchVal_some hp, hk, beq_iff_eq.mpr hdml, Bool.true_and])]
            constructor
            · simp only [List.map_cons, ih1, List.cons_append]
              congr 1
              simp [respSummary, dmlResponse, dmlSummary, dmlKidStr, hp, hdml,
                GetDmlType]
            · simp [ih2]
    · rw [if_neg hdml] at h
      rw [inRangeDmls_cons_skip kr e rest
        (by rw [beq_eq_false_iff_ne.mpr hdml, Bool.false_and])]
      exact ih hmr _ resp count h

theorem buildTxnGo_ok_exists (kr : KeyRange) (mid : List EventBuffer) (c : EventBuffer)
    (hm : ∀ e ∈ mid, strStartsWith e.LogLine "BEGIN" = false ∧
      strStartsWith e.LogLine "COMMIT" = false)
    (hc : strStartsWith c.LogLine "COMMIT" = true)
    (hparse : ∀ e ∈ mid, GetSqlType e.firstKw = "DML" →
      ∃ r, parseKeyspaceId e.LogLine = .ok r) :
    ∀ dmlBuffer : List String, ∃ resp count,
      buildTxnGo kr (mid ++ [c]) dmlBuffer = .ok (resp, count) := by
  have hcb := commit_not_begin hc
  induction mid with
  | nil =>
    intro buf
    refine ⟨[commitResponse c], 0, ?_⟩
    simp [List.nil_append, buildTxnGo, hc, hcb]
  | cons e rest ih =>
    intro buf
    have hme := hm e (List.mem_cons_self e rest)
    have hmr : ∀ u ∈ rest, strStartsWith u.LogLine "BEGIN" = false ∧
        strStartsWith u.LogLine "COMMIT" = false :=
      fun u hu => hm u (List.mem_cons_of_mem e hu)
    have hpr : ∀ u ∈ rest, GetSqlType u.firstKw = "DML" →
        ∃ r, parseKeyspaceId u.LogLine = .ok r :=
      fun u hu => hparse u (List.mem_cons_of_mem e hu)
    by_cases hdml : GetSqlType e.firstKw = "DML"
    · obtain ⟨r0, hp⟩ := hparse e (List.mem_cons_self e rest) hdml
      cases r0 with
      | none =>
        obtain ⟨resp, count, hres⟩ := ih hmr hpr buf
        refine ⟨resp, count, ?_⟩
        rw [List.cons_append,
          buildTxnGo_cons_dml_none kr e (rest ++ [c]) buf hme.1 hme.2 hdml hp]
        exact hres
      | some pr =>
        obtain ⟨kidStr, kid⟩ := pr
        cases hk : kr.kontains kid with
        | false =>
          obtain ⟨resp, count, hres⟩ := ih hmr hpr []
          refine ⟨resp, count, ?_⟩
          rw [List.cons_append,
            buildTxnGo_cons_dml_out kr e (rest ++ [c]) buf kidStr kid
              hme.1 hme.2 hdml hp hk]
          exact hres
        | true =>
          obtain ⟨resp, count, hres⟩ := ih hmr hpr []
          refine ⟨dmlResponse e kidStr (buf ++ [e.LogLine]) :: resp, count + 1, ?_⟩
          rw [List.cons_append]
          exact buildTxnGo_cons_dml_in kr e (rest ++ [c]) buf kidStr kid
            resp count hme.1 hme.2 hdml hp hk hres
    · obtain ⟨resp, count, hres⟩ := ih hmr hpr (buf ++ [e.LogLine])
      refine ⟨resp, count, ?_⟩
      rw [List.cons_append,
        buildTxnGo_cons_other kr e (rest ++ [c]) buf hme.1 hme.2 hdml]
      exact hres

theorem coordLe_refl (c : ReplicationCoordinates) : coordLe c c = true := by
  unfold coordLe
  rw [if_pos rfl]
  simp

theorem coordLe_of_same (c1 c2 : ReplicationCoordinates)
    (hf : c1.MasterFilename = c2.MasterFilename)
    (hp : c1.MasterPosition ≤ c2.MasterPosition) : coordLe c1 c2 = true := by
  unfold coordLe
  rw [if_pos hf]
  exact decide_eq_true hp

theorem xidCheck_coords (st st1 : BlpState) (line : String)
    (h : xidCheck st line = .ok st1) :
    st1.currentPosition.coords = st.currentPosition.coords := by
  unfold xidCheck at h
  split at h
  · unfold parseXid at h
    split at h
    · exact absurd h (by simp)
    · next x hx =>
      rw [← Except.ok.inj h]
  · rw [← Except.ok.inj h]

theorem parsePositionData_monotone_step (st : BlpState) (line : String)
    (st1 : BlpState) (hwf : wfLine st line = true)
    (h : parsePositionData st line = .ok st1) :
    coordLe st.currentPosition.coords st1.currentPosition.coords = true := by
  unfold wfLine at hwf
  rw [Bool.and_eq_true] at hwf
  obtain ⟨hw1, hw2⟩ := hwf
  unfold parsePositionData at h
  split at h
  · split at h
    · rw [← Except.ok.inj h]
      exact coordLe_refl _
    · rw [xidCheck_coords st st1 line h]
      exact coordLe_refl _
  · next hat =>
    have hat' : strStartsWith line "# at " = false := by simpa using hat
    split at h
    · next hrot =>
      split at h
      · exact absurd h (by simp)
      · next st2 hre =>
        rw [xidCheck_coords st2 st1 line h]
        simp only [hat', hrot, Bool.false_or, Bool.not_true] at hw1
        unfold parseRotateEvent at hre
        split at hre
        · exact absurd hre (by simp)
        · next p hrp =>
          split at hre
          · next hrel =>
            simp only [hrel, Bool.false_and, Bool.false_or] at hw1
            rw [hrp] at hw1
            rw [← Except.ok.inj hre]
            exact hw1
          · next hrel =>
            split at hre
            · next hpre =>
              rw [← Except.ok.inj hre]
              exact coordLe_of_same _ _ rfl le_rfl
            · next hpre =>
              have hg : ((splitOnStr (pathFileOf
                    st.currentPosition.coords.RelayFilename) ".").headD ""
                  == (splitOnStr (rotFileOf line) ".").headD "") = false :=
                beq_eq_false_iff_ne.mpr hpre
              simp only [hg, Bool.and_false, Bool.false_or] at hw1
              rw [hrp] at hw1
              rw [← Except.ok.inj hre]
              exact hw1
    · next hrot =>
      have hrot' : containsSubstr line "Rotate to " = false := by simpa using hrot
      split at h
      · next hend =>
        split at h
        · rw [← Except.ok.inj h]
          exact coordLe_refl _
        · next hstart =>
          have hstart' : containsSubstr line "Start: binlog" = false := by
            simpa using hstart
          split at h
          · exact absurd h (by simp)
          · next stm hpm =>
            unfold parseMasterPosition at hpm
            split at hpm
            · exact absurd hpm (by simp)
            · next n hen =>
              have hstm := Except.ok.inj hpm
              subst hstm
              simp only [hat', hrot', hend, hstart', Bool.false_or, Bool.not_true,
                Bool.or_false] at hw2
              rw [hen] at hw2
              by_cases hn : n = 0
              · rw [if_neg (show
                    ¬ ({ st with nextStmtPosition := n } : BlpState).nextStmtPosition ≠ 0
                    from fun hq => hq hn)] at h
                rw [xidCheck_coords _ st1 line h]
                exact coordLe_refl _
              · rw [if_pos (show
                    ({ st with nextStmtPosition := n } : BlpState).nextStmtPosition ≠ 0
                    from hn)] at h
                rw [xidCheck_coords _ st1 line h]
                have hbne : (n == 0) = false := beq_eq_false_iff_ne.mpr hn
                simp only [hbne, Bool.false_or] at hw2
                exact coordLe_of_same _ _ rfl (of_decide_eq_true hw2)
      · rw [xidCheck_coords st st1 line h]
        exact coordLe_refl _

theorem getDmlType_not_marker (k : String) :
    GetDmlType k ≠ "BEGIN" ∧ GetDmlType k ≠ "COMMIT" := by
  unfold GetDmlType
  by_cases h : GetSqlType k = "DML"
  · rw [if_pos h]
    constructor
    · intro he
      rw [he] at h
      exact absurd h (by decide)
    · intro he
      rw [he] at h
      exact absurd h (by decide)
  · rw [if_neg h]
    exact ⟨by decide, by decide⟩

/-- C5: over any well-formed position-line sequence (applied end-log-pos
values do not regress within a file, and master-coordinate rotate
targets do not regress across files), the master coordinates recorded by
the parser after each line form a monotonic non-decreasing sequence
under the file-index/offset order, across end_log_pos updates and both
kinds of rotate events. -/
theorem parser_coordinates_monotone (st : BlpState) (lines : List String)
    (hwf : wfTrace st lines = true) :
    List.Chain' (fun c1 c2 => coordLe c1 c2 = true)
      (st.currentPosition.coords :: coordTrace st lines) := by
  induction lines generalizing st with
  | nil =>
    exact List.chain'_singleton _
  | cons l ls ih =>
    unfold wfTrace at hwf
    rw [Bool.and_eq_true] at hwf
    obtain ⟨hw1, hw2⟩ := hwf
    simp only [coordTrace]
    cases hp : parsePositionData st l with
    | error m =>
      exact List.chain'_singleton _
    | ok st1 =>
      rw [hp] at hw2
      exact List.Chain'.cons (parsePositionData_monotone_step st l st1 hw1 hp)
        (ih st1 hw2)

/-- Witness: the sample trace (an end_log_pos update followed by a
binlog rotate) is well formed and its coordinates are monotone. -/
theorem parser_coordinates_monotone_witness :
    wfTrace samplePosState sampleLines = true ∧
    List.Chain' (fun c1 c2 => coordLe c1 c2 = true)
      (samplePosState.currentPosition.coords ::
        coordTrace samplePosState sampleLines) :=
  ⟨by decide, parser_coordinates_monotone samplePosState sampleLines (by decide)⟩

theorem buildTxnGo_cons_begin_elim (kr : KeyRange) (b : EventBuffer)
    (l : List EventBuffer) (buf : List String) (r : List BinlogResponse × Nat)
    (hb : strStartsWith b.LogLine "BEGIN" = true)
    (h : buildTxnGo kr (b :: l) buf = .ok r) :
    ∃ r2, buildTxnGo kr l buf = .ok r2 ∧ r.1 = beginResponse b :: r2.1 ∧
      r.2 = r2.2 := by
  simp only [buildTxnGo, hb, eq_self_iff_true, if_true] at h
  split at h
  · exact absurd h (by simp)
  · next r2 heq =>
    refine ⟨r2, heq, ?_, ?_⟩
    · rw [← Except.ok.inj h]
    · rw [← Except.ok.inj h]

theorem handleCommit_shape (kr : KeyRange) (st : BlpState) (b : EventBuffer)
    (mid : List EventBuffer) (c : EventBuffer) (st2 : BlpState)
    (sent : Option (List BinlogResponse))
    (hb : strStartsWith b.LogLine "BEGIN" = true)
    (hm : ∀ e ∈ mid, strStartsWith e.LogLine "BEGIN" = false ∧
      strStartsWith e.LogLine "COMMIT" = false)
    (hc : strStartsWith c.LogLine "COMMIT" = true)
    (hdb : st.dbmatch = true)
    (hbuf : st.txnLineBuffer = b :: mid)
    (hrun : handleCommitEvent kr st c = .ok (st2, sent)) :
    (inRangeDmls kr mid = [] → sent = none) ∧
    (inRangeDmls kr mid ≠ [] → ∃ resp, sent = some resp ∧
      resp.map respSummary
        = beginSummary b ::
          ((inRangeDmls kr mid).map dmlSummary ++
            [commitSummary
              { c with pos := { c.pos with Xid := st.currentPosition.Xid } }])) := by
  simp only [handleCommitEvent, hdb, Bool.true_eq_false, if_false, hbuf,
    buildTxnResponse] at hrun
  rw [List.cons_append] at hrun
  split at hrun
  · exact absurd hrun (by simp)
  · next r heq =>
    obtain ⟨r2, heq2, hr1, hr2⟩ := buildTxnGo_cons_begin_elim kr b _ [] r hb heq
    obtain ⟨hmap, hcount⟩ := buildTxnGo_ok_elim kr mid
      { c with pos := { c.pos with Xid := st.currentPosition.Xid } }
      hm hc [] r2.1 r2.2 heq2
    by_cases hz : r.2 = 0
    · rw [if_pos hz] at hrun
      obtain ⟨hst, hsent⟩ := Prod.mk.inj (Except.ok.inj hrun)
      have hlen : (inRangeDmls kr mid).length = 0 := by
        rw [← hcount, ← hr2]
        exact hz
      constructor
      · intro _
        exact hsent.symm
      · intro hne
        exact absurd (List.length_eq_zero.mp hlen) hne
    · rw [if_neg hz] at hrun
      obtain ⟨hst, hsent⟩ := Prod.mk.inj (Except.ok.inj hrun)
      constructor
      · intro hnil
        exfalso
        apply hz
        rw [hr2, hcount, hnil]
        rfl
      · intro _
        refine ⟨r.1, hsent.symm, ?_⟩
        rw [hr1]
        simp only [List.map_cons, hmap]
        rfl

/-- C3: for a committed transaction whose buffer holds the begin event
followed by the intermediate lines, handleCommitEvent on a matching
database builds the batch begin response, then the responses of exactly
those buffered DML events whose extracted keyspace id lies in the
subscriber key range in buffer order, then the commit response; and when
zero DMLs fall inside the range the whole batch is not sent. -/
theorem buildTxnResponse_filters_by_keyrange (kr : KeyRange) (st : BlpState)
    (b : EventBuffer) (mid : List EventBuffer) (c : EventBuffer) (st2 : BlpState)
    (sent : Option (List BinlogResponse))
    (hb : strStartsWith b.LogLine "BEGIN" = true)
    (hm : ∀ e ∈ mid, strStartsWith e.LogLine "BEGIN" = false ∧
      strStartsWith e.LogLine "COMMIT" = false)
    (hc : strStartsWith c.LogLine "COMMIT" = true)
    (hdb : st.dbmatch = true)
    (hbuf : st.txnLineBuffer = b :: mid)
    (hrun : handleCommitEvent kr st c = .ok (st2, sent)) :
    (inRangeDmls kr mid = [] → sent = none) ∧
    (inRangeDmls kr mid ≠ [] → ∃ resp, sent = some resp ∧
      resp.map respSummary
        = beginSummary b ::
          ((inRangeDmls kr mid).map dmlSummary ++
            [commitSummary
              { c with pos := { c.pos with Xid := st.currentPosition.Xid } }])) :=
  handleCommit_shape kr st b mid c st2 sent hb hm hc hdb hbuf hrun

/-- Witness: the sample transaction, whose single DML keyspace id 3 lies
in the open sample range, is sent as begin, the DML, commit. -/
theorem buildTxnResponse_filters_by_keyrange_witness :
    (inRangeDmls sampleRange [sampleDmlEvt] = [] →
      (some sampleSentBatch : Option (List BinlogResponse)) = none) ∧
    (inRangeDmls sampleRange [sampleDmlEvt] ≠ [] → ∃ resp,
      (some sampleSentBatch : Option (List BinlogResponse)) = some resp ∧
      resp.map respSummary
        = beginSummary sampleBeginEvt ::
          ((inRangeDmls sampleRange [sampleDmlEvt]).map dmlSummary ++
            [commitSummary
              { sampleCommitEvt with pos := { sampleCommitEvt.pos with
                  Xid := sampleBlp.currentPosition.Xid } }])) :=
  buildTxnResponse_filters_by_keyrange sampleRange sampleBlp sampleBeginEvt
    [sampleDmlEvt] sampleCommitEvt sampleEndState (some sampleSentBatch)
    (by decide) (by decide) (by decide) rfl rfl rfl

theorem blpInv_clear (st1 : BlpState) (h1 : st1.inTxn = false)
    (h2 : st1.txnLineBuffer = []) : blpInv st1 :=
  ⟨fun _ => h2, fun ht => absurd ht (by rw [h1]; simp)⟩

theorem blpInv_keep (st st1 : BlpState) (h1 : st1.inTxn = st.inTxn)
    (h2 : st1.txnLineBuffer = st.txnLineBuffer) (hinv : blpInv st) :
    blpInv st1 := by
  constructor
  · intro hf
    rw [h2]
    exact hinv.1 (h1.symm.trans hf)
  · intro ht
    rw [h2]
    exact hinv.2 (h1.symm.trans ht)

theorem blpInv_begin (st1 : BlpState) (e : EventBuffer)
    (h1 : st1.inTxn = true) (h2 : st1.txnLineBuffer = [e])
    (hbB : strStartsWith e.LogLine "BEGIN" = true) : blpInv st1 :=
  ⟨fun hf => absurd hf (by rw [h1]; simp),
   fun _ => ⟨e, [], h2, hbB, fun x hx => absurd hx (List.not_mem_nil x)⟩⟩

theorem blpInv_push (st st1 : BlpState) (e : EventBuffer)
    (h1 : st1.inTxn = true) (h2 : st1.txnLineBuffer = st.txnLineBuffer ++ [e])
    (hin : st.inTxn = true) (hinv : blpInv st)
    (heB : strStartsWith e.LogLine "BEGIN" = false)
    (heC : strStartsWith e.LogLine "COMMIT" = false) : blpInv st1 := by
  obtain ⟨b, mid, hbuf, hbB, hmids⟩ := hinv.2 hin
  refine ⟨fun hf => absurd hf (by rw [h1]; simp),
    fun _ => ⟨b, mid ++ [e], ?_, hbB, ?_⟩⟩
  · rw [h2, hbuf, List.cons_append]
  · intro x hx
    rcases List.mem_append.mp hx with hx1 | hx2
    · exact hmids x hx1
    · rw [List.mem_singleton.mp hx2]
      exact ⟨heB, heC⟩

/-- C4: parseEventData preserves the transaction-buffer shape invariant;
every transaction batch delivered on a commit contains exactly one begin
event, as its first element, and ends with the commit event; a ROLLBACK
line discards the buffered events and clears the in-transaction flag
while delivering nothing; and a BEGIN arriving inside a transaction is a
parse error. -/
theorem parseEventData_txn_batches (kr : KeyRange) (st : BlpState)
    (e : EventBuffer) (hinv : blpInv st) :
    (∀ st1 sent, parseEventData kr st e = .ok (st1, sent) → blpInv st1) ∧
    (st.inTxn = true → strStartsWith e.LogLine "COMMIT" = true →
      ∀ st2 batch, handleCommitEvent kr st e = .ok (st2, some batch) →
      (batch.map BinlogResponse.SqlType).head? = some "BEGIN" ∧
      (batch.map BinlogResponse.SqlType).getLast? = some "COMMIT" ∧
      (batch.map BinlogResponse.SqlType).count "BEGIN" = 1) ∧
    (strStartsWith e.LogLine "ROLLBACK" = true →
      parseEventData kr st e
        = .ok ({ st with inTxn := false, txnLineBuffer := [] }, none)) ∧
    (st.inTxn = true → strStartsWith e.LogLine "BEGIN" = true →
      parseEventData kr st e
        = .error "BEGIN encountered with non-empty trxn buffer") := by
  refine ⟨?_, ?_, ?_, ?_⟩
  · intro st1 sent h
    unfold parseEventData at h
    split at h
    · next hts =>
      split at h
      · exact absurd h (by simp)
      · next ts hta =>
        split at h
        · next hin =>
          obtain ⟨h1, h2⟩ := Prod.mk.inj (Except.ok.inj h)
          subst h1
          exact blpInv_push st _ _ hin rfl hin hinv (timestamp_not_begin hts)
            (timestamp_not_commit hts)
        · next hin =>
          obtain ⟨h1, h2⟩ := Prod.mk.inj (Except.ok.inj h)
          subst h1
          exact blpInv_keep st _ rfl rfl hinv
    · next hts =>
      split at h
      · next hbg =>
        split at h
        · exact absurd h (by simp)
        · next st1n heq =>
          obtain ⟨h1, h2⟩ := Prod.mk.inj (Except.ok.inj h)
          subst h1
          unfold handleBeginEvent at heq
          split at heq
          · exact absurd heq (by simp)
          · rw [← Except.ok.inj heq]
            exact blpInv_begin _ e rfl rfl hbg
      · next hbg =>
        split at h
        · next hrb =>
          obtain ⟨h1, h2⟩ := Prod.mk.inj (Except.ok.inj h)
          subst h1
          exact blpInv_clear _ rfl rfl
        · next hrb =>
          split at h
          · next hcm =>
            split at h
            · exact absurd h (by simp)
            · next r heq =>
              obtain ⟨h1, h2⟩ := Prod.mk.inj (Except.ok.inj h)
              subst h1
              exact blpInv_clear _ rfl rfl
          · next hcm =>
            split at h
            · next hlen =>
              split at h
              · next hcnd =>
                obtain ⟨h1, h2⟩ := Prod.mk.inj (Except.ok.inj h)
                subst h1
                rw [Bool.and_eq_true] at hcnd
                obtain ⟨hin, _⟩ := hcnd
                simp only [Bool.not_eq_true] at hbg hcm
                exact blpInv_push st _ e hin rfl hin hinv hbg hcm
              · next hcnd =>
                split at h
                · obtain ⟨h1, h2⟩ := Prod.mk.inj (Except.ok.inj h)
                  subst h1
                  exact hinv
                · split at h
                  · exact absurd h (by simp)
                  · obtain ⟨h1, h2⟩ := Prod.mk.inj (Except.ok.inj h)
                    subst h1
                    exact hinv
            · next hlen =>
              obtain ⟨h1, h2⟩ := Prod.mk.inj (Except.ok.inj h)
              subst h1
              exact hinv
  · intro hin hce st2 batch hrun
    obtain ⟨b, mid, hbuf, hbB, hmids⟩ := hinv.2 hin
    cases hdb : st.dbmatch with
    | false =>
      unfold handleCommitEvent at hrun
      rw [if_pos hdb] at hrun
      simp at hrun
    | true =>
      obtain ⟨hz, hs⟩ := handleCommit_shape kr st b mid e st2 (some batch)
        hbB hmids hce hdb hbuf hrun
      by_cases hnil : inRangeDmls kr mid = []
      · exact absurd (hz hnil) (by simp)
      · obtain ⟨resp, hr, hshape⟩ := hs hnil
        obtain rfl : batch = resp := Option.some.inj hr
        have hTypes : batch.map BinlogResponse.SqlType
            = "BEGIN" :: ((inRangeDmls kr mid).map (fun x => GetDmlType x.firstKw)
              ++ ["COMMIT"]) := by
          have hmm : batch.map BinlogResponse.SqlType
              = (batch.map respSummary).map Prod.fst := by
            rw [List.map_map]
            rfl
          rw [hmm, hshape]
          simp [beginSummary, commitSummary, dmlSummary, respSummary]
        refine ⟨?_, ?_, ?_⟩
        · rw [hTypes]
          rfl
        · rw [hTypes, ← List.cons_append]
          exact List.getLast?_concat _
        · rw [hTypes, ← List.cons_append, List.count_append,
            List.count_cons_self]
          have hz1 : ((inRangeDmls kr mid).map
              (fun x => GetDmlType x.firstKw)).count "BEGIN" = 0 := by
            rw [List.count_eq_zero]
            intro hmem
            obtain ⟨x, _, hx⟩ := List.mem_map.mp hmem
            exact (getDmlType_not_marker x.firstKw).1 hx
          rw [hz1]
          decide
  · intro hrb
    have hts := rollback_not_timestamp hrb
    have hbg := rollback_not_begin hrb
    simp only [parseEventData, hts, hbg, Bool.false_eq_true, if_false, hrb,
      eq_self_iff_true, if_true]
  · intro hin hbg
    have hts := begin_not_timestamp hbg
    obtain ⟨b, mid, hbuf, hbB, hmids⟩ := hinv.2 hin
    simp only [parseEventData, hts, hbg, Bool.false_eq_true, if_false,
      eq_self_iff_true, if_true, handleBeginEvent]
    rw [if_pos ⟨by rw [hbuf]; exact Nat.succ_pos mid.length, hin⟩]

/-- Witness: at the sample transaction the invariant holds, and the sent
batch has the begin marker first, the commit marker last, and a single
begin. -/
theorem parseEventData_txn_batches_witness :
    blpInv sampleBlp ∧
    ((sampleSentBatch.map BinlogResponse.SqlType).head? = some "BEGIN" ∧
     (sampleSentBatch.map BinlogResponse.SqlType).getLast? = some "COMMIT" ∧
     (sampleSentBatch.map BinlogResponse.SqlType).count "BEGIN" = 1) :=
  have hinv : blpInv sampleBlp :=
    ⟨fun h => absurd h (by decide), fun _ =>
      ⟨sampleBeginEvt, [sampleDmlEvt], rfl, by decide, by decide⟩⟩
  ⟨hinv,
   (parseEventData_txn_batches sampleRange sampleBlp sampleCommitEvt hinv).2.1
     rfl (by decide) sampleEndState sampleSentBatch rfl⟩

end Vitess
